import Mathlib

/-!
# Verification of the tdd-ai-coder core components

This file embeds the core of the `tdd-ai-coder` repository in Lean 4:

* the **Report Normalizer** (`src/utils/parse-output.ts`: `parseVitestOutput`,
  `extractFileResults`, `extractSummary`, `extractTestCode`,
  `createEmptyTestResults`),
* the **prompt-context computations** of `src/ai-service.ts` (`buildPrompt`'s
  best-attempt selection and persistent-error quorum),
* the **Orchestration State Machine** (`src/orchestrator.ts`: `startTddAiLoop`
  and `runLoop`), both as a single-control-flow function and as a small-step
  interleaving machine for the file-change event handler,
* the **validation override** functions of `src/utils/test-validator.ts`
  (`isValidationOverridden` / `setValidationOverride`), together with the
  fragment of ECMAScript regular-expression semantics they rely on.

JavaScript dynamic values are modelled by the inductive type `JVal`
(JSON values); JavaScript truthiness, `||` defaulting, strict equality
against literals and property access are modelled by dedicated helpers.
JavaScript exceptions (the `TypeError`s the Normalizer's recognizers
can raise on malformed data) are modelled by `Except String`, the
carried string playing the role of the host error message; code with no
throw site stays pure.  All definitions are written with structural or
fuel-bounded recursion so that concrete runs reduce inside the kernel.
-/

/-- An exact decimal number `m * 10 ^ e`, the value denoted by a JSON
numeral.  The comparisons the embedded source performs on numbers
(strict equality with a small integer, truthiness) agree with IEEE
doubles on every value exercised here, and no arithmetic is ever done
on them. -/
structure JNum where
  m : Int
  e : Int
  deriving Repr, DecidableEq

/-- Value equality of two decimals (align the exponents). -/
def numEqv (a b : JNum) : Bool :=
  if a.e ≥ b.e then a.m * (10 : Int) ^ (a.e - b.e).toNat = b.m
  else a.m = b.m * (10 : Int) ^ (b.e - a.e).toNat

/-- The decimal denoting an integer. -/
def intNum (n : Int) : JNum := ⟨n, 0⟩

/-- JSON / JavaScript values as produced by `JSON.parse`. -/
inductive JVal where
  | jnull : JVal
  | jbool : Bool → JVal
  | jnum : JNum → JVal
  | jstr : String → JVal
  | jarr : List JVal → JVal
  | jobj : List (String × JVal) → JVal

/-- JavaScript truthiness of a value (`undefined` is handled by
`truthyO` on `Option JVal`). -/
def truthy : JVal → Bool
  | .jnull => false
  | .jbool b => b
  | .jnum q => decide (q.m ≠ 0)
  | .jstr s => decide (s ≠ "")
  | .jarr _ => true
  | .jobj _ => true

/-- Truthiness of a possibly-undefined value. -/
def truthyO : Option JVal → Bool
  | none => false
  | some v => truthy v

/-- The JavaScript `a || b` defaulting idiom: the first operand if it is
truthy, otherwise the default. -/
def jsOrJ (v : Option JVal) (d : JVal) : JVal :=
  match v with
  | some x => if truthy x then x else d
  | none => d

/-- Property access `v.k` on a non-`null` receiver (on non-object
receivers the accesses the source performs yield `undefined`, as
JavaScript's primitive boxing does).  A *plain* access on `null` throws
a `TypeError` in JavaScript: the Normalizer's recognizers test their
receiver with `isNullJ` first and surface that throw as an
`Except.error`.  An *optional-chained* access (`v?.k`) yields
`undefined` on a nullish receiver, which this total function also
models (`getF` of `jnull` is `none`). -/
def JVal.getF : JVal → String → Option JVal
  | .jobj fs, k => fs.lookup k
  | _, _ => none

/-- `true` exactly on the JSON `null`: the receivers on which a plain
property access throws.  (`JSON.parse` output never contains
`undefined`, the other throwing receiver.) -/
def isNullJ : JVal → Bool
  | .jnull => true
  | _ => false

/-- Strict equality `v === "s"` against a string literal. -/
def jstrEq (v : Option JVal) (s : String) : Bool :=
  match v with
  | some (.jstr t) => decide (t = s)
  | _ => false

/-- Strict equality `v === n` against an integer literal. -/
def jnumEq (v : Option JVal) (n : Int) : Bool :=
  match v with
  | some (.jnum q) => numEqv q (intNum n)
  | _ => false

/-- The array stored in a value, if it is an array (`Array.isArray`). -/
def JVal.asArr : JVal → Option (List JVal)
  | .jarr xs => some xs
  | _ => none

/-- Indexing `v?.[i]` as the source uses it on `failureMessages`:
arrays index into their elements, strings into one-character strings,
objects look up the decimal key; anything else gives `undefined`. -/
def jIndex : JVal → Nat → Option JVal
  | .jarr xs, i => xs.get? i
  | .jstr s, i => (s.data.get? i).map (fun c => .jstr (String.mk [c]))
  | .jobj fs, i => fs.lookup (toString i)
  | _, _ => none

/-- JavaScript `ToString` on the primitive values the source interpolates.
Integral numbers print as in JavaScript; non-integral numbers and arrays
are given placeholder renderings (a divergence confined to values no
theorem below observes). -/
def jsToString : JVal → String
  | .jstr s => s
  | .jnull => "null"
  | .jbool true => "true"
  | .jbool false => "false"
  | .jnum q => if q.e ≥ 0 then toString (q.m * (10 : Int) ^ q.e.toNat) else "<decimal>"
  | .jarr _ => ""
  | .jobj _ => "[object Object]"

/-- `ToString` of a possibly-undefined value (`undefined` interpolates as
the string `"undefined"`). -/
def jsToStringO : Option JVal → String
  | none => "undefined"
  | some v => jsToString v

/-! ## Character-list utilities

All string manipulation the embedded source performs is implemented on
`List Char` by structural recursion, so that every concrete run reduces
by `decide`. -/

/-- The whitespace characters trimmed by `String.prototype.trim` (the
subset that can occur in the runner output). -/
def jsWhitespace (c : Char) : Bool :=
  c = ' ' || c = '\t' || c = '\n' || c = '\r' || c = '\x0b' || c = '\x0c'

/-- `trim`: drop whitespace from both ends. -/
def jsTrim (cs : List Char) : List Char :=
  ((cs.dropWhile jsWhitespace).reverse.dropWhile jsWhitespace).reverse

/-- Index of the first occurrence of a character (`String.prototype.indexOf`). -/
def firstIdxOf (cs : List Char) (c : Char) : Option Nat :=
  match cs with
  | [] => none
  | d :: rest =>
    if d = c then some 0 else (firstIdxOf rest c).map (· + 1)

/-- Index of the last occurrence of a character (`String.prototype.lastIndexOf`). -/
def lastIdxOf (cs : List Char) (c : Char) : Option Nat :=
  match cs with
  | [] => none
  | d :: rest =>
    match lastIdxOf rest c with
    | some i => some (i + 1)
    | none => if d = c then some 0 else none

/-- `String.prototype.substring start stop` on character lists, including
JavaScript's argument swap when `start > stop`. -/
def jsSubstring (cs : List Char) (start stop : Nat) : List Char :=
  let a := min start stop
  let b := max start stop
  (cs.drop a).take (b - a)

/-- Whether `needle` occurs as a contiguous sublist of `hay`
(`String.prototype.includes`). -/
def containsSub (hay needle : List Char) : Bool :=
  match hay with
  | [] => needle.isEmpty
  | _ :: rest => needle.isPrefixOf hay || containsSub rest needle

/-- Split at every occurrence of a character (used for `.split('\n')` and
for top-level regex alternation). -/
def splitOnChar (sep : Char) (cs : List Char) : List (List Char) :=
  match cs with
  | [] => [[]]
  | c :: rest =>
    let r := splitOnChar sep rest
    if c = sep then [] :: r
    else
      match r with
      | h :: t => (c :: h) :: t
      | [] => [[c]]

/-- Replace the first occurrence of `pat` inside `cs` by `rep`
(`String.prototype.replace` with a string pattern). -/
def replaceFirst (cs pat rep : List Char) : List Char :=
  match cs with
  | [] => []
  | c :: rest =>
    if pat.isPrefixOf cs then rep ++ cs.drop pat.length
    else c :: replaceFirst rest pat rep

/-- `replace` on `String`s via the character-list implementation. -/
def replaceFirstS (s pat rep : String) : String :=
  String.mk (replaceFirst s.data pat.data rep.data)

/-! ## A JSON parser (`JSON.parse`)

Fuel-bounded recursive descent.  The fuel passed by `jsonParse` always
suffices (every two fuel units consume at least one character), so the
wrapper faithfully decides whether `JSON.parse` succeeds. -/

/-- Skip JSON whitespace. -/
def skipWs (cs : List Char) : List Char :=
  cs.dropWhile (fun c => c = ' ' || c = '\t' || c = '\n' || c = '\r')

/-- Parse the contents of a JSON string after the opening quote. -/
def parseStringBody (fuel : Nat) (cs : List Char) : Option (List Char × List Char) :=
  match fuel, cs with
  | 0, _ => none
  | _, [] => none
  | f + 1, c :: rest =>
    if c = '"' then some ([], rest)
    else if c = '\\' then
      match rest with
      | [] => none
      | e :: rest2 =>
        let esc : Option (Char × List Char) :=
          if e = '"' then some ('"', rest2)
          else if e = '\\' then some ('\\', rest2)
          else if e = '/' then some ('/', rest2)
          else if e = 'b' then some ('\x08', rest2)
          else if e = 'f' then some ('\x0c', rest2)
          else if e = 'n' then some ('\n', rest2)
          else if e = 'r' then some ('\r', rest2)
          else if e = 't' then some ('\t', rest2)
          else if e = 'u' then
            match rest2 with
            | h1 :: h2 :: h3 :: h4 :: rest3 =>
              let hexVal (h : Char) : Option Nat :=
                if '0' ≤ h ∧ h ≤ '9' then some (h.toNat - '0'.toNat)
                else if 'a' ≤ h ∧ h ≤ 'f' then some (h.toNat - 'a'.toNat + 10)
                else if 'A' ≤ h ∧ h ≤ 'F' then some (h.toNat - 'A'.toNat + 10)
                else none
              match hexVal h1, hexVal h2, hexVal h3, hexVal h4 with
              | some a, some b, some c3, some d =>
                some (Char.ofNat (((a * 16 + b) * 16 + c3) * 16 + d), rest3)
              | _, _, _, _ => none
            | _ => none
          else none
        match esc with
        | some (ch, rest3) =>
          match parseStringBody f rest3 with
          | some (tail, rem) => some (ch :: tail, rem)
          | none => none
        | none => none
    else
      match parseStringBody f rest with
      | some (tail, rem) => some (c :: tail, rem)
      | none => none

/-- Parse a run of decimal digits, returning their value and count. -/
def parseDigits (fuel : Nat) (cs : List Char) (acc : Nat) (cnt : Nat) :
    (Nat × Nat × List Char) :=
  match fuel, cs with
  | 0, _ => (acc, cnt, cs)
  | f + 1, c :: rest =>
    if '0' ≤ c ∧ c ≤ '9' then
      parseDigits f rest (acc * 10 + (c.toNat - '0'.toNat)) (cnt + 1)
    else (acc, cnt, cs)
  | _, [] => (acc, cnt, cs)

/-- Parse a JSON number (sign, integer part, optional fraction and
exponent), returning its exact decimal value. -/
def parseNumber (cs : List Char) : Option (JNum × List Char) :=
  let (neg, cs1) :=
    match cs with
    | '-' :: rest => (true, rest)
    | _ => (false, cs)
  let (ip, ic, cs2) := parseDigits (cs1.length + 1) cs1 0 0
  if ic = 0 then none
  else
    -- JSON forbids leading zeros such as "01"
    if ic > 1 ∧ cs1.headD 'x' = '0' then none
    else
      let (fp, fc, cs3) :=
        match cs2 with
        | '.' :: rest =>
          let (v, c, r) := parseDigits (rest.length + 1) rest 0 0
          (v, c, if c = 0 then cs2 else r)
        | _ => (0, 0, cs2)
      if cs2.headD 'x' = '.' ∧ fc = 0 then none
      else
        let (eneg, hasExp, cs4) :=
          match cs3 with
          | 'e' :: '-' :: rest => (true, true, rest)
          | 'e' :: '+' :: rest => (false, true, rest)
          | 'e' :: rest => (false, true, rest)
          | 'E' :: '-' :: rest => (true, true, rest)
          | 'E' :: '+' :: rest => (false, true, rest)
          | 'E' :: rest => (false, true, rest)
          | _ => (false, false, cs3)
        let (ev, ec, cs5) := parseDigits (cs4.length + 1) cs4 0 0
        if hasExp ∧ ec = 0 then none
        else
          let mant : Int := (ip * 10 ^ fc + fp : Nat)
          let expo : Int := (if hasExp then (if eneg then -(ev : Int) else (ev : Int)) else 0) - (fc : Int)
          some (⟨if neg then -mant else mant, expo⟩, if hasExp then cs5 else cs3)

/-- Insert-or-replace used to build objects: JavaScript keeps the first
position of a key and overwrites its value on duplicates. -/
def setField (fs : List (String × JVal)) (k : String) (v : JVal) :
    List (String × JVal) :=
  match fs with
  | [] => [(k, v)]
  | (k0, v0) :: rest =>
    if k0 = k then (k0, v) :: rest else (k0, v0) :: setField rest k v

mutual

/-- Parse one JSON value. -/
def parseVal (fuel : Nat) (cs : List Char) : Option (JVal × List Char) :=
  match fuel with
  | 0 => none
  | f + 1 =>
    match skipWs cs with
    | [] => none
    | c :: rest =>
      if c = '"' then
        match parseStringBody (rest.length + 1) rest with
        | some (body, rem) => some (.jstr (String.mk body), rem)
        | none => none
      else if c = '{' then
        parseObj f rest []
      else if c = '[' then
        parseArrBody f rest []
      else if c = 't' then
        match rest with
        | 'r' :: 'u' :: 'e' :: rem => some (.jbool true, rem)
        | _ => none
      else if c = 'f' then
        match rest with
        | 'a' :: 'l' :: 's' :: 'e' :: rem => some (.jbool false, rem)
        | _ => none
      else if c = 'n' then
        match rest with
        | 'u' :: 'l' :: 'l' :: rem => some (.jnull, rem)
        | _ => none
      else
        match parseNumber (c :: rest) with
        | some (q, rem) => some (.jnum q, rem)
        | none => none

/-- Parse the inside of an array after `[`, given the elements so far. -/
def parseArrBody (fuel : Nat) (cs : List Char) (acc : List JVal) :
    Option (JVal × List Char) :=
  match fuel with
  | 0 => none
  | f + 1 =>
    match skipWs cs with
    | ']' :: rem => if acc.isEmpty then some (.jarr [], rem) else none
    | _ =>
      match parseVal f cs with
      | none => none
      | some (v, rem) =>
        match skipWs rem with
        | ',' :: rem2 => parseArrBody f rem2 (acc ++ [v])
        | ']' :: rem2 => some (.jarr (acc ++ [v]), rem2)
        | _ => none

/-- Parse the inside of an object after the opening brace, given the
fields so far. -/
def parseObj (fuel : Nat) (cs : List Char) (acc : List (String × JVal)) :
    Option (JVal × List Char) :=
  match fuel with
  | 0 => none
  | f + 1 =>
    match skipWs cs with
    | '}' :: rem => if acc.isEmpty then some (.jobj [], rem) else none
    | '"' :: rest =>
      match parseStringBody (rest.length + 1) rest with
      | none => none
      | some (key, rem) =>
        match skipWs rem with
        | ':' :: rem2 =>
          match parseVal f rem2 with
          | none => none
          | some (v, rem3) =>
            let acc2 := setField acc (String.mk key) v
            match skipWs rem3 with
            | ',' :: rem4 => parseObj f rem4 acc2
            | '}' :: rem4 => some (.jobj acc2, rem4)
            | _ => none
        | _ => none
    | _ => none

end

/-- `JSON.parse` on a character list: parse a complete value with
nothing but whitespace after it. -/
def jsonParseL (cs : List Char) : Option JVal :=
  match parseVal (2 * cs.length + 8) cs with
  | some (v, rem) => if (skipWs rem).isEmpty then some v else none
  | none => none

/-- `JSON.parse` on strings. -/
def jsonParse (s : String) : Option JVal :=
  jsonParseL s.data

/-! ## The Report Normalizer (`src/utils/parse-output.ts`)

The data model mirrors `TestResults` / `TestFileResult` / `TestCaseResult`
from `src/types.ts`, but fields that the JavaScript code fills with
arbitrary dynamic values (`name`, `file`, `duration`, summary counters)
are kept as raw `JVal`s, exactly as the untyped runtime does. -/

/-- The number `0` as a `JVal`. -/
def jnum0 : JVal := .jnum ⟨0, 0⟩

/-- One test case of the normalized report (`TestCaseResult`). -/
structure TestCaseResult where
  name : JVal
  success : Bool
  error : Option JVal
  code : Option JVal
  duration : JVal
  location : Option JVal

/-- One file of the normalized report (`TestFileResult`). -/
structure TestFileResult where
  file : JVal
  success : Bool
  tests : List TestCaseResult

/-- The report summary (`TestSummary`). -/
structure TestSummary where
  total : JVal
  passed : JVal
  failed : JVal
  duration : JVal
  error : Option String

/-- The normalized report (`TestResults`). -/
structure TestResults where
  files : List TestFileResult
  summary : TestSummary

/-- The `assertion`-field fallback of `extractTestCode`
(`parse-output.ts` lines 334–338). -/
def assertionCode (test : JVal) : Option JVal :=
  if truthyO (test.getF "assertion") then test.getF "assertion" else none

/-- The stack-trace step of `extractTestCode` (`parse-output.ts` lines
323–331), falling back to the `assertion` field: `test.error?.stackTrace`
is truthiness-tested, split into lines, and the first line mentioning
the test file outside `node_modules` is returned.  Calling `.split` on
a truthy non-string `stackTrace` throws a `TypeError` in JavaScript
(`Except.error` here; the carried string stands in for the host error
text, which no statement below inspects). -/
def stackTraceCode (test : JVal) : Except String (Option JVal) :=
  match (test.getF "error").bind (fun e => e.getF "stackTrace") with
  | some (.jstr stackStr) =>
    if stackStr ≠ "" then
      let needle :=
        match test.getF "file" with
        | some fv => if truthy fv then jsToString fv else ""
        | none => ""
      match (splitOnChar '\n' stackStr.data).find? (fun line =>
          containsSub line needle.data && !(containsSub line "node_modules".data)) with
      | some line => .ok (some (.jstr (String.mk (jsTrim line))))
      | none => .ok (assertionCode test)
    else .ok (assertionCode test)
  | some st =>
    if truthy st then .error "test.error.stackTrace.split is not a function"
    else .ok (assertionCode test)
  | none => .ok (assertionCode test)

/-- `extractTestCode` (`parse-output.ts` lines 302–339): opportunistically
pull a code snippet out of a failed test result, trying `source`, the
first failure message, the stack trace and the `assertion` field in that
order.  `message?.split` on a non-nullish non-string first failure
message throws a `TypeError` in JavaScript (a nullish one short-circuits
the optional chain instead); the throw is the `Except.error` case, to be
caught by `parseVitestOutput`'s outer handler. -/
def extractTestCode (test : JVal) : Except String (Option JVal) :=
  if truthyO (test.getF "source") then .ok (test.getF "source")
  else
    match test.getF "failureMessages" with
    | some (.jarr (m0 :: _)) =>
      match m0 with
      | .jnull => stackTraceCode test
      | .jstr msg =>
        match (splitOnChar '\n' msg.data).find? (fun line =>
            containsSub line "expect(".data || containsSub line "assert.".data) with
        | some codeLine => .ok (some (.jstr (String.mk (jsTrim codeLine))))
        | none => stackTraceCode test
      | _ => .error "message?.split is not a function"
    | _ => stackTraceCode test

/-- `Array.isArray(v) ? v : []`, the guard every recognizer applies to
its raw test list. -/
def rawArr (v : Option JVal) : List JVal :=
  match v with
  | some (.jarr ts) => ts
  | _ => []

/-- Throw-propagating element-wise transformation: the body of a
JavaScript `map` (or `for..of` loop) whose callback can throw, with the
leftmost throw aborting the whole traversal. -/
def exMap {α β : Type} (f : α → Except String β) : List α → Except String (List β)
  | [] => .ok []
  | a :: rest =>
    match f a with
    | .error e => .error e
    | .ok b =>
      match exMap f rest with
      | .error e => .error e
      | .ok bs => .ok (b :: bs)

/-- One assertion result of the array-based recognizer
(`parse-output.ts` lines 117–124): a `null` element throws on the
`fullName` access, and `extractTestCode` can throw for a failed test. -/
def arrayOneTest (test : JVal) : Except String TestCaseResult :=
  if isNullJ test then .error "Cannot read properties of null (reading \x27fullName\x27)"
  else
    let failed := jstrEq (test.getF "status") "failed"
    (if failed then extractTestCode test else .ok none).map (fun code =>
      { name := jsOrJ (test.getF "fullName") (jsOrJ (test.getF "title") (.jstr "Unnamed test")),
        success := jstrEq (test.getF "status") "passed",
        error := if failed then
            some (jsOrJ ((test.getF "failureMessages").bind (fun fm => jIndex fm 0))
              (.jstr "Unknown error"))
          else none,
        code := code,
        duration := jsOrJ (test.getF "duration") jnum0,
        location :=
          match test.getF "location" with
          | some loc =>
            if truthy loc then
              some (.jstr (jsToStringO (loc.getF "line") ++ ":" ++ jsToStringO (loc.getF "column")))
            else none
          | none => none })

/-- One file of the array-based `testResults` recognizer
(`parse-output.ts` lines 107–137): a `null` element throws on the
`name` access; file-level `success` is recomputed from the per-test
flags. -/
def arrayOneFile (idx : Nat) (fr : JVal) : Except String TestFileResult :=
  if isNullJ fr then .error "Cannot read properties of null (reading \x27name\x27)"
  else
    (exMap arrayOneTest (rawArr (fr.getF "assertionResults"))).map (fun transformedTests =>
      { file := jsOrJ (fr.getF "name") (jsOrJ (fr.getF "filepath")
          (jsOrJ (fr.getF "file") (.jstr ("unknown-file-" ++ toString idx)))),
        success := !(transformedTests.any (fun t => !t.success)),
        tests := transformedTests })

/-- The array-based `testResults` recognizer (`parse-output.ts` lines
105–137). -/
def arrayTestResults (frs : List JVal) : Except String (List TestFileResult) :=
  exMap (fun p => arrayOneFile p.1 p.2) frs.enum

/-- One test of the object-based recognizer (`parse-output.ts` lines
164–170): a `null` element throws on the `name` access, and
`extractTestCode` can throw for a failed test. -/
def objectOneTest (test : JVal) : Except String TestCaseResult :=
  if isNullJ test then .error "Cannot read properties of null (reading \x27name\x27)"
  else
    let failed := jstrEq (test.getF "status") "failed"
    (if failed then extractTestCode test else .ok none).map (fun code =>
      { name := jsOrJ (test.getF "name") (.jstr "Unnamed test"),
        success := jstrEq (test.getF "status") "passed",
        error := if failed then
            some (jsOrJ ((test.getF "error").bind (fun e => e.getF "message"))
              (.jstr "Unknown error"))
          else none,
        code := code,
        duration := jsOrJ (test.getF "duration") jnum0,
        location := none })

/-- One file of the object-based recognizer (`parse-output.ts` lines
143–172): a falsy entry yields an empty failing file; file-level
`success` trusts the runner's `failures` counter. -/
def objectOneFile (filePath : String) (fileResult : JVal) : Except String TestFileResult :=
  if !truthy fileResult then
    .ok { file := .jstr filePath, success := false, tests := [] }
  else
    (exMap objectOneTest (rawArr (fileResult.getF "tests"))).map (fun tests =>
      { file := .jstr filePath,
        success := jnumEq (fileResult.getF "failures") 0,
        tests := tests })

/-- The object-based `testResults` recognizer (`parse-output.ts` lines
141–173). -/
def objectTestResults (fields : List (String × JVal)) : Except String (List TestFileResult) :=
  exMap (fun p => objectOneFile p.1 p.2) fields

/-- One test of the `files`-array recognizer (`parse-output.ts` lines
185–191): a `null` element throws on the `name` access (the code
snippet comes straight from `source`, so `extractTestCode` is not
involved). -/
def filesOneTest (test : JVal) : Except String TestCaseResult :=
  if isNullJ test then .error "Cannot read properties of null (reading \x27name\x27)"
  else
    let status := test.getF "status"
    let failed := jstrEq status "fail" || jstrEq status "failed"
    .ok { name := jsOrJ (test.getF "name") (.jstr "Unnamed test"),
          success := jstrEq status "pass" || jstrEq status "passed",
          error := if failed then
              some (jsOrJ ((test.getF "error").bind (fun e => e.getF "message"))
                (.jstr "Unknown error"))
            else none,
          code := if failed then
              (match test.getF "source" with
               | some src => if truthy src then some src else none
               | none => none)
            else none,
          duration := jsOrJ (test.getF "duration") jnum0,
          location := none }

/-- One file of the `files`-array recognizer (`parse-output.ts` lines
178–193): a `null` element throws on the `tests` access; file-level
`success` trusts the runner's `failed` counter. -/
def filesOneFile (file : JVal) : Except String TestFileResult :=
  if isNullJ file then .error "Cannot read properties of null (reading \x27tests\x27)"
  else
    (exMap filesOneTest (rawArr (file.getF "tests"))).map (fun tests =>
      { file := jsOrJ (file.getF "name") (.jstr "unknown"),
        success := !truthyO (file.getF "failed") || jnumEq (file.getF "failed") 0,
        tests := tests })

/-- The `files`-array recognizer (`parse-output.ts` lines 176–194). -/
def filesArrayResults (files : List JVal) : Except String (List TestFileResult) :=
  exMap filesOneFile files

/-- One test of the `suites`-array recognizer (`parse-output.ts` lines
206–212): a `null` element throws on the `name` access. -/
def suitesOneTest (test : JVal) : Except String TestCaseResult :=
  if isNullJ test then .error "Cannot read properties of null (reading \x27name\x27)"
  else
    let passed := jstrEq (test.getF "status") "passed"
    .ok { name := jsOrJ (test.getF "name") (.jstr "Unnamed test"),
          success := passed,
          error := if !passed then some (jsOrJ (test.getF "error") (.jstr "Test failed"))
            else none,
          code := if !passed then
              (match test.getF "code" with
               | some c => if truthy c then some c else none
               | none => none)
            else none,
          duration := jsOrJ (test.getF "duration") jnum0,
          location := none }

/-- One suite of the `suites`-array recognizer (`parse-output.ts` lines
199–213): a `null` element throws on the `tests` access; file-level
`success` trusts the runner's suite `status`. -/
def suitesOneFile (suite : JVal) : Except String TestFileResult :=
  if isNullJ suite then .error "Cannot read properties of null (reading \x27tests\x27)"
  else
    (exMap suitesOneTest (rawArr (suite.getF "tests"))).map (fun tests =>
      { file := jsOrJ (suite.getF "file") (jsOrJ (suite.getF "name") (.jstr "unknown")),
        success := jstrEq (suite.getF "status") "passed",
        tests := tests })

/-- The `suites`-array recognizer (`parse-output.ts` lines 197–215). -/
def suitesArrayResults (suites : List JVal) : Except String (List TestFileResult) :=
  exMap suitesOneFile suites

/-- Append a raw result under its file key, preserving first-insertion
key order as JavaScript objects with non-integer-like keys do. -/
def insertGrouped (m : List (String × List JVal)) (k : String) (v : JVal) :
    List (String × List JVal) :=
  match m with
  | [] => [(k, [v])]
  | (k0, vs) :: rest =>
    if k0 = k then (k0, vs ++ [v]) :: rest
    else (k0, vs) :: insertGrouped rest k v

/-- The grouping loop of the flat `results` recognizer
(`parse-output.ts` lines 222–229): a `null` result throws on the `file`
access; the file key is the `ToString` coercion JavaScript applies to a
property key. -/
def groupFold : List JVal → List (String × List JVal) →
    Except String (List (String × List JVal))
  | [], m => .ok m
  | r :: rest, m =>
    if isNullJ r then .error "Cannot read properties of null (reading \x27file\x27)"
    else groupFold rest
      (insertGrouped m (jsToString (jsOrJ (r.getF "file") (.jstr "unknown"))) r)

/-- One grouped file (`parse-output.ts` lines 231–245): file-level
`success` is recomputed from the per-test statuses.  The raw results in
the map were each dereferenced by the grouping loop, so this phase has
no throw site. -/
def groupedFile (p : String × List JVal) : TestFileResult :=
  { file := .jstr p.1,
    success := p.2.all (fun t => jstrEq (t.getF "status") "passed"),
    tests := p.2.map (fun test =>
      let passed := jstrEq (test.getF "status") "passed"
      { name := jsOrJ (test.getF "name") (.jstr "Unnamed test"),
        success := passed,
        error := if !passed then some (jsOrJ (test.getF "error") (.jstr "Test failed"))
          else none,
        code := none,
        duration := jsOrJ (test.getF "duration") jnum0,
        location := none }) }

/-- The flat `results`-array recognizer (`parse-output.ts` lines
218–246): group by the `file` field, then assemble one file per key. -/
def groupedResults (results : List JVal) : Except String (List TestFileResult) :=
  (groupFold results []).map (fun fileMap => fileMap.map groupedFile)

/-- The synthetic file list returned when no recognizer applies
(`parse-output.ts` lines 252–261). -/
def placeholderFiles : List TestFileResult :=
  [{ file := .jstr "unknown", success := false,
     tests := [{ name := .jstr "Placeholder test", success := false,
                 error := some (.jstr "Could not determine test format from Vitest output"),
                 code := none, duration := jnum0, location := none }] }]

/-- `extractFileResults` (`parse-output.ts` lines 101–262): the ordered
recognizer cascade.  The result is `Except.error` exactly when the
JavaScript function throws — always a `TypeError` from a plain property
access on a `null` element or a `.split` call on a non-string — to be
caught by `parseVitestOutput`'s outer handler. -/
def extractFileResults (data : JVal) : Except String (List TestFileResult) :=
  match data.getF "testResults" with
  | some (.jarr frs) => arrayTestResults frs
  | some (.jobj fields) => objectTestResults fields
  | _ =>
    match data.getF "files" with
    | some (.jarr files) => filesArrayResults files
    | _ =>
      match data.getF "suites" with
      | some (.jarr suites) => suitesArrayResults suites
      | _ =>
        match data.getF "results" with
        | some (.jarr results) => groupedResults results
        | _ => .ok placeholderFiles

/-- `extractSummary` (`parse-output.ts` lines 267–294): totals from the
first of `numTotalTests` (presence, not truthiness), `totals`, `stats`;
zero otherwise. -/
def extractSummary (data : JVal) : TestSummary :=
  match data.getF "numTotalTests" with
  | some _ =>
    { total := jsOrJ (data.getF "numTotalTests") jnum0,
      passed := jsOrJ (data.getF "numPassedTests") jnum0,
      failed := jsOrJ (data.getF "numFailedTests") jnum0,
      duration := jsOrJ (data.getF "duration") jnum0,
      error := none }
  | none =>
    if truthyO (data.getF "totals") then
      { total := jsOrJ ((data.getF "totals").bind (fun t => t.getF "tests")) jnum0,
        passed := jsOrJ ((data.getF "totals").bind (fun t => t.getF "passed")) jnum0,
        failed := jsOrJ ((data.getF "totals").bind (fun t => t.getF "failed")) jnum0,
        duration := jsOrJ (data.getF "duration") jnum0,
        error := none }
    else if truthyO (data.getF "stats") then
      { total := jsOrJ ((data.getF "stats").bind (fun t => t.getF "tests")) jnum0,
        passed := jsOrJ ((data.getF "stats").bind (fun t => t.getF "passes")) jnum0,
        failed := jsOrJ ((data.getF "stats").bind (fun t => t.getF "failures")) jnum0,
        duration := jsOrJ ((data.getF "stats").bind (fun t => t.getF "duration")) jnum0,
        error := none }
    else
      { total := jnum0, passed := jnum0, failed := jnum0, duration := jnum0, error := none }

/-- `createEmptyTestResults` (`parse-output.ts` lines 344–366): the
placeholder report carrying an error message. -/
def createEmptyTestResults (errorMessage : String) : TestResults :=
  { files := [{ file := .jstr "error", success := false,
                tests := [{ name := .jstr "Error", success := false,
                            error := some (.jstr errorMessage), code := none,
                            duration := jnum0, location := none }] }],
    summary := { total := jnum0, passed := jnum0, failed := .jnum ⟨1, 0⟩,
                 duration := jnum0, error := some errorMessage } }

/-- One match attempt of the recovery pattern
`/\x7b(?:[^\x7b\x7d]|(?:\x7b[^\x7b\x7d]*\x7d))*\x7d/` starting right after an
opening brace: consume non-brace characters and complete depth-one
nested groups until the closing brace.  Backtracking is not needed: at
every position exactly one alternative of the pattern can make
progress. -/
def braceInner (fuel : Nat) (cs : List Char) (acc : List Char) :
    Option (List Char × List Char) :=
  match fuel, cs with
  | 0, _ => none
  | _, [] => none
  | f + 1, c :: r =>
    if c = '}' then some (('}' :: acc).reverse, r)
    else if c = '{' then
      let mid := r.takeWhile (fun d => d ≠ '{' ∧ d ≠ '}')
      let rest2 := r.drop mid.length
      match rest2 with
      | '}' :: r2 => braceInner f r2 ('}' :: (mid.reverse ++ ('{' :: acc)))
      | _ => none
    else braceInner f r (c :: acc)

/-- Try the recovery pattern at the head of `cs`. -/
def braceMatchAt (cs : List Char) : Option (List Char × List Char) :=
  match cs with
  | '{' :: r => braceInner (r.length + 1) r ['{']
  | _ => none

/-- All matches of the recovery pattern, left to right and
non-overlapping, as `matchAll` yields them. -/
def braceMatchesAux (fuel : Nat) (cs : List Char) : List (List Char) :=
  match fuel, cs with
  | 0, _ => []
  | _, [] => []
  | f + 1, _ :: rest =>
    match braceMatchAt cs with
    | some (m, r) => m :: braceMatchesAux f r
    | none => braceMatchesAux f rest

/-- `[...jsonPart.matchAll(...)]` of the recovery scan. -/
def braceMatches (cs : List Char) : List (List Char) :=
  braceMatchesAux cs.length cs

/-- The parse-then-recover step of `parseVitestOutput` (lines 39–68):
strict `JSON.parse` of the slice, then the first brace-balanced segment
that parses. -/
def recoverData (jsonPart : List Char) : Option JVal :=
  match jsonParseL jsonPart with
  | some d => some d
  | none => (braceMatches jsonPart).findSome? (fun m => jsonParseL m)

/-- `parseVitestOutput` (`parse-output.ts` lines 10–96).  The error
message of the parse-error placeholder summarizes the JavaScript
`SyntaxError` text; no property below depends on message contents.  The
outer `try/catch` is the final `match`: everything in the body before
shape recognition is total, `extractFileResults` carries the body's
only throw sites, and the `catch` turns the thrown message into the
error placeholder. -/
def parseVitestOutput (output : String) : TestResults :=
  if jsTrim output.data = [] then createEmptyTestResults "Empty output from Vitest"
  else
    match firstIdxOf output.data '{' with
    | none => createEmptyTestResults "No JSON data found in output"
    | some jsonStart =>
      match lastIdxOf output.data '}' with
      | none => createEmptyTestResults "Incomplete JSON data in output"
      | some jsonEnd =>
        match recoverData (jsSubstring output.data jsonStart (jsonEnd + 1)) with
        | none => createEmptyTestResults "JSON parse error: no parsable JSON segment"
        | some data =>
          match extractFileResults data with
          | .error msg => createEmptyTestResults msg
          | .ok fileResults =>
            if fileResults.length = 0 then
              createEmptyTestResults "No test files found in Vitest output"
            else
              { files := fileResults, summary := extractSummary data }

/-! ## Branch anatomy of `parseVitestOutput`

`parsedData` names the parse-then-recover stage so that the statements
below can refer to the branch taken without restating the whole
pipeline. -/

/-- The JSON value `parseVitestOutput` works on, when its emptiness,
brace and parse checks all pass; `none` exactly when one of the
placeholder branches before shape recognition is taken. -/
def parsedData (output : String) : Option JVal :=
  if jsTrim output.data = [] then none
  else
    match firstIdxOf output.data '{', lastIdxOf output.data '}' with
    | some s, some e => recoverData (jsSubstring output.data s (e + 1))
    | _, _ => none

/-- Strict decimal comparison `a < b`. -/
def numLt (a b : JNum) : Bool :=
  if a.e ≥ b.e then a.m * (10 : Int) ^ (a.e - b.e).toNat < b.m
  else a.m < b.m * (10 : Int) ^ (b.e - a.e).toNat

/-- `v < w` on two numeric `JVal`s. -/
def jvalNumLt (v w : JVal) : Bool :=
  match v, w with
  | .jnum a, .jnum b => numLt a b
  | _, _ => false

instance : Inhabited JVal := ⟨.jnull⟩

instance : Inhabited TestCaseResult :=
  ⟨{ name := .jnull, success := false, error := none, code := none,
     duration := jnum0, location := none }⟩

instance : Inhabited TestFileResult := ⟨{ file := .jnull, success := false, tests := [] }⟩

/-! ## Prompt-context computations (`src/ai-service.ts`, `buildPrompt`)

`buildPrompt` receives `previousAttempts` with the statically typed shape
declared in `src/types.ts` (numbers and strings, no raw JSON), so these
models use `Int` and `String` fields directly. -/

/-- One entry of `testResults.failureDetails`. -/
structure FailureDetail where
  name : String
  error : String
  deriving DecidableEq

/-- The `testResults` summary attached to a previous attempt. -/
structure PrevTestResults where
  passingTests : Int
  failingTests : Int
  failureDetails : Option (List FailureDetail)
  deriving DecidableEq

/-- One previous attempt as passed to `buildPrompt`. -/
structure PrevAttempt where
  attempt : Int
  implementation : String
  testResults : Option PrevTestResults
  deriving DecidableEq

/-- A default attempt used only as `List.getD` fallback. -/
def dummyAttempt : PrevAttempt := { attempt := 0, implementation := "", testResults := none }

instance : Inhabited PrevAttempt := ⟨dummyAttempt⟩

/-- `previousAttempts[i]?.testResults?.passingTests || 0`
(`ai-service.ts` line 296). -/
def getPassing (p : PrevAttempt) : Int :=
  match p.testResults with
  | some tr => tr.passingTests
  | none => 0

/-- The best-attempt selection loop of `buildPrompt` (`ai-service.ts`
lines 292–301): running `(bestAttemptIndex, mostPassingTests)` state,
updated only on a strictly greater count. -/
def bestScanAux (pas : List PrevAttempt) (i : Nat) (best : Nat) (most : Int) : Nat × Int :=
  match pas with
  | [] => (best, most)
  | p :: rest =>
    if getPassing p > most then bestScanAux rest (i + 1) i (getPassing p)
    else bestScanAux rest (i + 1) best most

/-- `(bestAttemptIndex, mostPassingTests)` after the loop, from the
initial state `(0, 0)`. -/
def bestAttemptScan (pas : List PrevAttempt) : Nat × Int :=
  bestScanAux pas 0 0 0

/-- `attempt?.testResults?.failureDetails || []`, mapped to the
`"$\x7bfailure.name\x7d: $\x7bfailure.error\x7d"` keys (`ai-service.ts`
lines 310–316). -/
def attemptFailureKeys (p : PrevAttempt) : List String :=
  let details : List FailureDetail :=
    match p.testResults with
    | some tr => tr.failureDetails.getD []
    | none => []
  details.map (fun f => f.name ++ ": " ++ f.error)

/-- All failure keys of a history, in traversal order. -/
def allFailureKeys (pas : List PrevAttempt) : List String :=
  (pas.map attemptFailureKeys).flatten

/-- `commonErrors.get(key)` on the insertion-ordered map model. -/
def mapGet (m : List (String × Nat)) (k : String) : Option Nat :=
  match m with
  | [] => none
  | (k0, c) :: rest => if k0 = k then some c else mapGet rest k

/-- `commonErrors.set(key, v)`: overwrite in place, append new keys. -/
def mapSet (m : List (String × Nat)) (k : String) (v : Nat) : List (String × Nat) :=
  match m with
  | [] => [(k, v)]
  | (k0, c) :: rest =>
    if k0 = k then (k0, v) :: rest else (k0, c) :: mapSet rest k v

/-- `commonErrors.set(key, (commonErrors.get(key) || 0) + 1)`
(`ai-service.ts` line 314). -/
def incrKey (m : List (String × Nat)) (k : String) : List (String × Nat) :=
  mapSet m k ((mapGet m k).getD 0 + 1)

/-- The `commonErrors` map after the two nested `forEach` loops
(`ai-service.ts` lines 308–317). -/
def commonErrorsMap (pas : List PrevAttempt) : List (String × Nat) :=
  (allFailureKeys pas).foldl incrKey []

/-- `persistentErrors` (`ai-service.ts` lines 319–321): the keys whose
count reaches `Math.ceil(previousAttempts.length / 2)`, in map order. -/
def persistentErrors (pas : List PrevAttempt) : List String :=
  ((commonErrorsMap pas).filter (fun e => decide ((pas.length + 1) / 2 ≤ e.2))).map
    (fun e => e.1)

/-- An attempt with a given passing-test count and nothing else. -/
def mkAttemptWithPassing (n : Int) : PrevAttempt :=
  { attempt := 0, implementation := "",
    testResults := some { passingTests := n, failingTests := 0, failureDetails := none } }

/-- The concrete four-attempt history of the C6 example: the error
`"A: boom"` occurs in two of four attempts, `"B: x"` in one. -/
def quorumExampleHistory : List PrevAttempt :=
  [{ attempt := 1, implementation := "a",
     testResults := some
       { passingTests := 0, failingTests := 2,
         failureDetails := some [⟨"A", "boom"⟩, ⟨"B", "x"⟩] } },
   { attempt := 2, implementation := "b",
     testResults := some
       { passingTests := 1, failingTests := 1,
         failureDetails := some [⟨"A", "boom"⟩] } },
   { attempt := 3, implementation := "c",
     testResults := some
       { passingTests := 2, failingTests := 0, failureDetails := some [] } },
   { attempt := 4, implementation := "d", testResults := none }]

/-! ## Validation override (`src/utils/test-validator.ts` lines 748–774)

`setValidationOverride` records overrides by appending the (backslash
escaped) path to the `TEST_VALIDATION_OVERRIDE` environment variable
with `|` separators; `isValidationOverridden` compiles that variable as
a JavaScript regular expression and tests the queried path against it.
The environment variable is modelled as explicit state
(`Option String`, `none` = unset).

The regular-expression fragment the stored patterns can exercise is
modelled exactly: literal characters, `.` (any character except line
terminators), the postfix quantifiers `*`, `+`, `?`, and top-level `|`
alternation.  Pattern characters outside this fragment (`\`, `^`, `$`,
`(`, `)`, `[`, `]`, braces, and lazy quantifiers) compile to `none`,
standing for behaviour outside the modelled fragment; every theorem
below stays inside the fragment. -/

/-- A regex token: a literal character or `.`. -/
inductive RTok where
  | lit : Char → RTok
  | anyc : RTok
  deriving DecidableEq

/-- A postfix quantifier. -/
inductive RQuant where
  | one : RQuant
  | star : RQuant
  | plus : RQuant
  | opt : RQuant
  deriving DecidableEq

/-- A quantified token. -/
structure RAtom where
  tok : RTok
  q : RQuant
  deriving DecidableEq

/-- Fuel-bounded compilation of one alternation-free alternative of the
pattern (each step consumes at least one character, so the fuel passed
by `compileAlt` always suffices). -/
def compileAltF : Nat → List Char → Option (List RAtom)
  | 0, _ => none
  | _ + 1, [] => some []
  | f + 1, c :: rest =>
    if c = '*' || c = '+' || c = '?' then none
    else if c = '\\' || c = '^' || c = '$' || c = '(' || c = ')' ||
        c = '[' || c = ']' || c = '{' || c = '}' then none
    else
      let t := if c = '.' then RTok.anyc else RTok.lit c
      match rest with
      | q :: rest2 =>
        if q = '*' then (compileAltF f rest2).map (fun ps => ⟨t, .star⟩ :: ps)
        else if q = '+' then (compileAltF f rest2).map (fun ps => ⟨t, .plus⟩ :: ps)
        else if q = '?' then (compileAltF f rest2).map (fun ps => ⟨t, .opt⟩ :: ps)
        else (compileAltF f (q :: rest2)).map (fun ps => ⟨t, .one⟩ :: ps)
      | [] => some [⟨t, .one⟩]

/-- Compile one alternation-free alternative of the pattern. -/
def compileAlt (cs : List Char) : Option (List RAtom) :=
  compileAltF (cs.length + 1) cs

/-- Whether a token matches one character (`.` excludes line
terminators, as without the `s` flag). -/
def matchTok : RTok → Char → Bool
  | .lit c, d => decide (c = d)
  | .anyc, d => decide (d ≠ '\n') && decide (d ≠ '\r')

/-- Fuel-bounded matcher: does the atom sequence match a prefix of `s`?
Each recursive call shrinks `pattern length + string length`, so the
fuel `searchFrom` passes always suffices. -/
def matchAtoms : Nat → List RAtom → List Char → Bool
  | 0, _, _ => false
  | _ + 1, [], _ => true
  | f + 1, ⟨t, .one⟩ :: ps, s =>
    match s with
    | c :: s2 => matchTok t c && matchAtoms f ps s2
    | [] => false
  | f + 1, ⟨t, .opt⟩ :: ps, s =>
    matchAtoms f ps s ||
      (match s with
       | c :: s2 => matchTok t c && matchAtoms f ps s2
       | [] => false)
  | f + 1, ⟨t, .star⟩ :: ps, s =>
    matchAtoms f ps s ||
      (match s with
       | c :: s2 => matchTok t c && matchAtoms f (⟨t, .star⟩ :: ps) s2
       | [] => false)
  | f + 1, ⟨t, .plus⟩ :: ps, s =>
    match s with
    | c :: s2 => matchTok t c && matchAtoms f (⟨t, .star⟩ :: ps) s2
    | [] => false

/-- Unanchored search: try a prefix match at every position
(`RegExp.prototype.test`). -/
def searchFrom : Nat → List RAtom → List Char → Bool
  | 0, _, _ => false
  | f + 1, ps, s =>
    matchAtoms (s.length + ps.length + 1) ps s ||
      (match s with
       | [] => false
       | _ :: s2 => searchFrom f ps s2)

/-- `new RegExp(pat).test(str)`, `none` when the pattern falls outside
the modelled fragment (or would not compile at all). -/
def jsRegexTest (pat : String) (str : String) : Option Bool :=
  match (splitOnChar '|' pat.data).mapM compileAlt with
  | none => none
  | some alts => some (alts.any (fun ps => searchFrom (str.data.length + 1) ps str.data))

/-- The backslash-doubling in `setValidationOverride`
(`testFilePath.replace(/\\/g, '\\\\')`). -/
def escBackslashes : List Char → List Char
  | [] => []
  | c :: rest =>
    if c = '\\' then '\\' :: '\\' :: escBackslashes rest
    else c :: escBackslashes rest

/-- `setValidationOverride` (`test-validator.ts` lines 762–774): append
the escaped path to the override variable with a `|` separator. -/
def setValidationOverride (testFilePath : String) (env : Option String) : Option String :=
  let currentOverrides := env.getD ""
  if currentOverrides ≠ "" then
    some (currentOverrides ++ "|" ++ String.mk (escBackslashes testFilePath.data))
  else
    some (String.mk (escBackslashes testFilePath.data))

/-- `isValidationOverridden` (`test-validator.ts` lines 748–756): an
unset or empty variable means no override; otherwise test the path
against the variable compiled as a regular expression. -/
def isValidationOverridden (testFilePath : String) (env : Option String) : Option Bool :=
  match env with
  | none => some false
  | some overridePattern =>
    if overridePattern = "" then some false
    else jsRegexTest overridePattern testFilePath

/-- The override state after a sequence of `setValidationOverride`
calls, starting from an unset variable. -/
def overrideState (paths : List String) : Option String :=
  paths.foldl (fun env q => setValidationOverride q env) none

/-- Characters that a regex treats literally (or as the self-matching
`.`): everything except quantifiers, escapes, anchors, grouping,
classes, braces, alternation and line terminators. -/
def plainPathChar (c : Char) : Bool :=
  !(c = '*' || c = '+' || c = '?' || c = '\\' || c = '^' || c = '$' || c = '(' ||
    c = ')' || c = '[' || c = ']' || c = '{' || c = '}' || c = '|' ||
    c = '\n' || c = '\r')

/-- A non-empty path built from plain characters. -/
def plainPath (p : String) : Bool :=
  decide (p ≠ "") && p.data.all plainPathChar

/-- The atom a plain character compiles to. -/
def plainAtom (c : Char) : RAtom :=
  ⟨if c = '.' then RTok.anyc else RTok.lit c, .one⟩

/-- Concatenation of paths with `|` separators (the shape of the stored
override pattern). -/
def pipeJoin : List String → List Char
  | [] => []
  | p :: ps => '|' :: (p.data ++ pipeJoin ps)

/-! ## The Orchestration State Machine (`src/orchestrator.ts`)

`runLoop` is embedded as a function over an explicit environment that
answers the orchestrator's effectful calls (`runTests`, the two
`fs.readFile`s, the OpenAI round trip, `applyGeneratedCode`), keyed by
the attempt number and file path so an environment can script any run.
`path.join` is modelled as `/`-concatenation, faithful to the paths the
orchestrator builds. -/

/-- The status labels the orchestrator emits through `onUpdate`
(`src/types.ts`, `StatusUpdateType`). -/
inductive StatusUpdateType where
  | running_tests : StatusUpdateType
  | generating_code : StatusUpdateType
  | implementation_updated : StatusUpdateType
  | success : StatusUpdateType
  | error : StatusUpdateType
  | max_attempts_reached : StatusUpdateType
  deriving DecidableEq, Repr

/-- `ImplementationAttempt.testResults` (`src/types.ts` lines 114–122). -/
structure AttemptTestResults where
  totalTests : JVal
  passingTests : JVal
  failingTests : JVal
  failureDetails : Option (List (JVal × JVal))

/-- `ImplementationAttempt` (`src/types.ts` lines 107–123); the
`timestamp` field carries no behaviour and is omitted. -/
structure ImplementationAttempt where
  attempt : Nat
  implementation : String
  fileUpdated : Option String
  success : Option Bool
  testResults : Option AttemptTestResults

/-- `TestResult`, the value `runTests` resolves with (`src/types.ts`
lines 9–15): the runner's exit-code success flag plus the normalized
report. -/
structure TestRunResult where
  success : Bool
  results : Option TestResults
  error : Option String

/-- The OpenAI round trip of `generateImplementation` (request, response
validation and markdown cleaning, `ai-service.ts` lines 120–224)
abstracted to its two outcomes: a failure message, or the cleaned
response text. -/
inductive ApiOutcome where
  | apiError : String → ApiOutcome
  | apiContent : String → ApiOutcome

/-- `GenerateResult` (`src/types.ts` lines 66–73). -/
structure GenerateResult where
  success : Bool
  code : Option String
  error : Option String
  message : Option String

/-- The environment answering the orchestrator's effectful calls,
keyed by attempt number (and file path where applicable). -/
structure OrchEnv where
  runTests : Nat → TestRunResult
  readTestFile : Nat → String → Option String
  readImpl : Nat → String → Option String
  api : Nat → String → ApiOutcome
  applyOk : Nat → String → Bool

/-- `generateImplementation` (`ai-service.ts` lines 49–225) up to the
abstracted API call.  Returns the result and whether the generation
backend was reached (the pre-call validation and the all-passing early
return never reach it).  `previousAttempts` only feeds the prompt text,
which the abstracted `ApiOutcome` already accounts for. -/
def generateImplementation (fileResult : TestFileResult) (testCode : String)
    (currentImplementation : String) (previousAttempts : List ImplementationAttempt)
    (api : ApiOutcome) : GenerateResult × Bool :=
  let _ := previousAttempts
  if testCode = "" then
    ({ success := false, code := none, error := some "No test code provided",
       message := none }, false)
  else
    let failingTests := fileResult.tests.filter (fun t => !t.success)
    if failingTests.isEmpty then
      ({ success := true, code := some currentImplementation, error := none,
         message := some "All tests are passing!" }, false)
    else
      match api with
      | .apiError msg =>
        ({ success := false, code := none, error := some msg, message := none }, true)
      | .apiContent cleaned =>
        if cleaned = "" then
          ({ success := false, code := none, error := some "AI returned empty code",
             message := none }, true)
        else
          ({ success := true, code := some cleaned, error := none, message := none }, true)

/-- Whether a path string starts with `/` (`fileResult.file.startsWith('/')`). -/
def startsWithSlash (s : String) : Bool :=
  match s.data with
  | '/' :: _ => true
  | _ => false

/-- The loop state of `runLoop` plus instrumentation: the emitted
status updates in order and the number of generation-backend calls. -/
structure LoopState where
  running : Bool
  attempts : Nat
  allTestsPassing : Bool
  history : List ImplementationAttempt
  updates : List StatusUpdateType
  backendCalls : Nat

/-- The state `startTddAiLoop` initializes (`orchestrator.ts` lines
36–41), with empty instrumentation. -/
def initLoopState : LoopState :=
  { running := true, attempts := 0, allTestsPassing := false, history := [],
    updates := [], backendCalls := 0 }

/-- The accumulator of the per-file loop: the shared history, the
iteration's `currentAttempt` value, and the instrumentation. -/
structure FileAcc where
  history : List ImplementationAttempt
  cur : ImplementationAttempt
  backendCalls : Nat
  updates : List StatusUpdateType

/-- One pass of the per-file body (`orchestrator.ts` lines 160–283):
resolve paths, read the test file, read the current implementation,
generate, apply, and on full success update `currentAttempt` and append
it to the history; every failure is a `continue`. -/
def processFile (env : OrchEnv) (attemptNo : Nat) (projectPath : String)
    (acc : FileAcc) (fileResult : TestFileResult) : FileAcc :=
  let fileStr := jsToString fileResult.file
  let testFilePath := if startsWithSlash fileStr then fileStr else projectPath ++ "/" ++ fileStr
  match env.readTestFile attemptNo testFilePath with
  | none => { acc with updates := acc.updates ++ [.error] }
  | some testCode =>
    let implementationPath := replaceFirstS (replaceFirstS testFilePath ".test." ".") ".spec." "."
    let currentImplementation := (env.readImpl attemptNo implementationPath).getD ""
    let updates := acc.updates ++ [.generating_code]
    let previousAttemptsForFile :=
      acc.history.filter (fun a => decide (a.fileUpdated = some implementationPath))
    let gen := generateImplementation fileResult testCode currentImplementation
      previousAttemptsForFile (env.api attemptNo implementationPath)
    let backendCalls := acc.backendCalls + (if gen.2 then 1 else 0)
    if gen.1.success = false then
      { acc with updates := updates ++ [.error], backendCalls := backendCalls }
    else if gen.1.code.getD "" = "" then
      { acc with updates := updates ++ [.error], backendCalls := backendCalls }
    else if env.applyOk attemptNo implementationPath = false then
      { acc with updates := updates ++ [.error], backendCalls := backendCalls }
    else
      let cur2 : ImplementationAttempt :=
        { attempt := acc.cur.attempt
          implementation := gen.1.code.getD ""
          fileUpdated := some implementationPath
          success := some false
          testResults := acc.cur.testResults }
      { history := acc.history ++ [cur2], cur := cur2, backendCalls := backendCalls,
        updates := updates ++ [.implementation_updated] }

/-- The `currentAttempt` record created at the top of an iteration
(`orchestrator.ts` lines 89–98). -/
def initialAttempt (attemptNo : Nat) (results : Option TestResults) : ImplementationAttempt :=
  let tr : AttemptTestResults :=
    { totalTests := jsOrJ (results.map (fun r => r.summary.total)) jnum0
      passingTests := jsOrJ (results.map (fun r => r.summary.passed)) jnum0
      failingTests := jsOrJ (results.map (fun r => r.summary.failed)) jnum0
      failureDetails := none }
  { attempt := attemptNo, implementation := "", fileUpdated := none, success := none,
    testResults := some tr }

/-- The failure details collected before the per-file loop
(`orchestrator.ts` lines 148–157). -/
def failingDetailsOf (files : List TestFileResult) : List (JVal × JVal) :=
  (files.map (fun f => (f.tests.filter (fun t => !t.success)).map
    (fun t => (t.name, jsOrJ t.error (.jstr "Unknown error"))))).flatten

/-- Attach collected failure details to `currentAttempt.testResults`
(`orchestrator.ts` lines 137–157). -/
def addFailureDetails (a : ImplementationAttempt) (details : List (JVal × JVal)) :
    ImplementationAttempt :=
  match a.testResults with
  | none =>
    let tr : AttemptTestResults :=
      { totalTests := jnum0, passingTests := jnum0, failingTests := jnum0,
        failureDetails := some details }
    { a with testResults := some tr }
  | some tr =>
    let tr2 : AttemptTestResults :=
      { tr with failureDetails := some (tr.failureDetails.getD [] ++ details) }
    { a with testResults := some tr2 }

/-- One iteration of the while body (`orchestrator.ts` lines 68–288):
run the tests; on runner success mark everything passing, record the
terminal attempt and emit `success`; with no results emit `error` and
continue; otherwise process the files with failing tests (or, when none
are flagged, every file) through `processFile`. -/
def runIteration (env : OrchEnv) (projectPath : String) (s : LoopState) : LoopState :=
  if (env.runTests (s.attempts + 1)).success then
    { running := s.running, attempts := s.attempts + 1, allTestsPassing := true,
      history := s.history ++
        [{ initialAttempt (s.attempts + 1) (env.runTests (s.attempts + 1)).results with
           success := some true }],
      updates := s.updates ++ [.running_tests, .success],
      backendCalls := s.backendCalls }
  else
    match (env.runTests (s.attempts + 1)).results with
    | none =>
      { running := s.running, attempts := s.attempts + 1,
        allTestsPassing := s.allTestsPassing, history := s.history,
        updates := s.updates ++ [.running_tests, .error],
        backendCalls := s.backendCalls }
    | some results =>
      let filesWithFailingTests :=
        results.files.filter (fun f => f.tests.any (fun t => !t.success))
      let cur := addFailureDetails (initialAttempt (s.attempts + 1) (some results))
        (failingDetailsOf filesWithFailingTests)
      let filesToProcess :=
        if filesWithFailingTests.length > 0 then filesWithFailingTests else results.files
      let acc := filesToProcess.foldl (processFile env (s.attempts + 1) projectPath)
        { history := s.history, cur := cur, backendCalls := s.backendCalls,
          updates := s.updates ++ [.running_tests] }
      { running := s.running, attempts := s.attempts + 1,
        allTestsPassing := s.allTestsPassing, history := acc.history,
        updates := acc.updates, backendCalls := acc.backendCalls }

/-- Fuel-bounded while loop plus the post-loop `max_attempts_reached`
check (`orchestrator.ts` lines 68 and 290–296).  Because every
iteration increments `attempts` (`runIteration_attempts`), fuel
`maxAttempts + 1 - s.attempts` always reaches the exit branch. -/
def runLoopFuel (env : OrchEnv) (projectPath : String) (maxAttempts : Nat) :
    Nat → LoopState → LoopState
  | 0, s => s
  | f + 1, s =>
    if s.running ∧ ¬s.allTestsPassing ∧ s.attempts < maxAttempts then
      runLoopFuel env projectPath maxAttempts f (runIteration env projectPath s)
    else if s.attempts ≥ maxAttempts ∧ ¬s.allTestsPassing then
      { s with updates := s.updates ++ [.max_attempts_reached] }
    else s

/-- `runLoop` (`orchestrator.ts` lines 65–297). -/
def runLoop (env : OrchEnv) (projectPath : String) (maxAttempts : Nat)
    (s : LoopState) : LoopState :=
  runLoopFuel env projectPath maxAttempts (maxAttempts + 1 - s.attempts) s

/-- A report whose only file (and only test) passes. -/
def reportAllPass : TestResults :=
  { files := [{ file := .jstr "/p/a.test.ts", success := true,
                tests := [{ name := .jstr "t", success := true, error := none,
                            code := none, duration := jnum0, location := none }] }],
    summary := { total := .jnum ⟨1, 0⟩, passed := .jnum ⟨1, 0⟩, failed := jnum0,
                 duration := jnum0, error := none } }

/-- A runner that reports a non-zero exit code together with an
all-passing report: everything else succeeds. -/
def envExitFail : OrchEnv :=
  { runTests := fun _ => { success := false, results := some reportAllPass, error := none },
    readTestFile := fun _ _ => some "test code",
    readImpl := fun _ _ => none,
    api := fun _ _ => .apiContent "impl",
    applyOk := fun _ _ => true }

/-- A runner reporting exit-code success. -/
def envExitSuccess : OrchEnv :=
  { runTests := fun _ => { success := true, results := some reportAllPass, error := none },
    readTestFile := fun _ _ => some "test code",
    readImpl := fun _ _ => none,
    api := fun _ _ => .apiContent "impl",
    applyOk := fun _ _ => true }

/-- A report with a single file containing a single failing test. -/
def reportOneFail : TestResults :=
  { files := [{ file := .jstr "/p/a.test.ts", success := false,
                tests := [{ name := .jstr "t", success := false,
                            error := some (.jstr "boom"), code := none,
                            duration := jnum0, location := none }] }],
    summary := { total := .jnum ⟨1, 0⟩, passed := jnum0, failed := .jnum ⟨1, 0⟩,
                 duration := jnum0, error := none } }

/-- Always-failing runner whose single failing file generates and
applies successfully on every attempt. -/
def envOneFileOk : OrchEnv :=
  { runTests := fun _ => { success := false, results := some reportOneFail, error := none },
    readTestFile := fun _ _ => some "test code",
    readImpl := fun _ _ => none,
    api := fun _ _ => .apiContent "generated code",
    applyOk := fun _ _ => true }

/-- Always-failing runner whose generation backend always errors. -/
def envGenFails : OrchEnv :=
  { runTests := fun _ => { success := false, results := some reportOneFail, error := none },
    readTestFile := fun _ _ => some "test code",
    readImpl := fun _ _ => none,
    api := fun _ _ => .apiError "backend down",
    applyOk := fun _ _ => true }

/-! ## Reference semantics of the per-file loop (claim C8)

In JavaScript, `currentAttempt` is one object: the per-file loop mutates
its fields and pushes *the same reference* onto `state.history`
(`orchestrator.ts` lines 270–276).  This model makes the aliasing
explicit: a store of attempt records addressed by index, a history of
indices, and `currentAttempt` held as the index `curRef`. -/

/-- The all-empty attempt record, used as the out-of-range fallback of
store reads. -/
def defaultAttempt : ImplementationAttempt :=
  { attempt := 0, implementation := "", fileUpdated := none, success := none,
    testResults := none }

/-- Store, plus the history as a list of store references. -/
structure StoreAcc where
  store : List ImplementationAttempt
  history : List Nat

/-- The value behind a history entry. -/
def StoreAcc.valueAt (acc : StoreAcc) (ref : Nat) : ImplementationAttempt :=
  acc.store.getD ref defaultAttempt

/-- The per-file body of `runLoop` under reference semantics: identical
control flow to `processFile`, but the success path mutates the record
at `curRef` in place and appends the *reference* to the history. -/
def processFileStore (env : OrchEnv) (attemptNo : Nat) (projectPath : String)
    (curRef : Nat) (acc : StoreAcc) (fileResult : TestFileResult) : StoreAcc :=
  let fileStr := jsToString fileResult.file
  let testFilePath := if startsWithSlash fileStr then fileStr else projectPath ++ "/" ++ fileStr
  match env.readTestFile attemptNo testFilePath with
  | none => acc
  | some testCode =>
    let implementationPath := replaceFirstS (replaceFirstS testFilePath ".test." ".") ".spec." "."
    let currentImplementation := (env.readImpl attemptNo implementationPath).getD ""
    let previousAttemptsForFile :=
      (acc.history.map (fun i => acc.store.getD i defaultAttempt)).filter
        (fun a => decide (a.fileUpdated = some implementationPath))
    let gen := generateImplementation fileResult testCode currentImplementation
      previousAttemptsForFile (env.api attemptNo implementationPath)
    if gen.1.success = false then acc
    else if gen.1.code.getD "" = "" then acc
    else if env.applyOk attemptNo implementationPath = false then acc
    else
      let old := acc.store.getD curRef defaultAttempt
      let upd : ImplementationAttempt :=
        { attempt := old.attempt
          implementation := gen.1.code.getD ""
          fileUpdated := some implementationPath
          success := some false
          testResults := old.testResults }
      { store := acc.store.set curRef upd, history := acc.history ++ [curRef] }

/-- The first of the two failing files of the C8 demonstration. -/
def fileAFailing : TestFileResult :=
  { file := .jstr "/p/a.test.ts", success := false,
    tests := [{ name := .jstr "tA", success := false, error := some (.jstr "boomA"),
                code := none, duration := jnum0, location := none }] }

/-- The second failing file. -/
def fileBFailing : TestFileResult :=
  { file := .jstr "/p/b.test.ts", success := false,
    tests := [{ name := .jstr "tB", success := false, error := some (.jstr "boomB"),
                code := none, duration := jnum0, location := none }] }

/-- A report with two failing files. -/
def reportTwoFail : TestResults :=
  { files := [fileAFailing, fileBFailing],
    summary := { total := .jnum ⟨2, 0⟩, passed := jnum0, failed := .jnum ⟨2, 0⟩,
                 duration := jnum0, error := none } }

/-- An always-failing runner with both files generating and applying
successfully. -/
def envTwoFiles : OrchEnv :=
  { runTests := fun _ => { success := false, results := some reportTwoFail, error := none },
    readTestFile := fun _ _ => some "test code",
    readImpl := fun _ _ => none,
    api := fun _ _ => .apiContent "generated code",
    applyOk := fun _ _ => true }

/-- The iteration's shared `currentAttempt` lives at store index 0. -/
def aliasDemoStart : StoreAcc :=
  { store := [addFailureDetails (initialAttempt 1 (some reportTwoFail))
      (failingDetailsOf reportTwoFail.files)], history := [] }

/-- State after the per-file step for the first failing file. -/
def aliasDemoAfterFirst : StoreAcc :=
  processFileStore envTwoFiles 1 "/p" 0 aliasDemoStart fileAFailing

/-- State after the per-file step for the second failing file. -/
def aliasDemoAfterSecond : StoreAcc :=
  processFileStore envTwoFiles 1 "/p" 0 aliasDemoAfterFirst fileBFailing

/-! ## Interleaving semantics of `startTddAiLoop` (claim C1)

The watcher's `onChange` handler (`orchestrator.ts` lines 48–61) resets
the shared state and calls `runLoop()` with no guard against an
iteration already being in flight.  Each `runLoop` invocation is a
single-threaded coroutine that yields at its `await` points; this model
represents an invocation by a program counter over the shared state and
lets a scheduler interleave the active invocations at those points (the
per-file body runs as one atomic block here, so every trace of this
model is a genuine JavaScript execution order). -/

/-- The shared `TddAiState` of `startTddAiLoop` (without
instrumentation). -/
structure SharedState where
  running : Bool
  attempts : Nat
  allTestsPassing : Bool
  history : List ImplementationAttempt

/-- The await-point program counter of one `runLoop` invocation. -/
inductive LoopPC where
  | cond : LoopPC
  | afterRunTests : LoopPC
  | fileStep : List TestFileResult → ImplementationAttempt → LoopPC
  | afterDelay : LoopPC
  | finished : LoopPC

/-- Run one invocation from one await point to the next.  The
`currentAttempt` record is created *after* the `runTests` await
returns, reading the shared counter at that moment (lines 89–98). -/
def instStep (env : OrchEnv) (maxAttempts : Nat) (projectPath : String)
    (pc : LoopPC) (σ : SharedState) : SharedState × LoopPC :=
  match pc with
  | .cond =>
    if σ.running ∧ ¬σ.allTestsPassing ∧ σ.attempts < maxAttempts then
      ({ σ with attempts := σ.attempts + 1 }, .afterRunTests)
    else (σ, .finished)
  | .afterRunTests =>
    if (env.runTests σ.attempts).success then
      let h2 := σ.history ++
        [{ initialAttempt σ.attempts (env.runTests σ.attempts).results with
           success := some true }]
      ({ σ with allTestsPassing := true, history := h2 }, .finished)
    else
      match (env.runTests σ.attempts).results with
      | none => (σ, .afterDelay)
      | some results =>
        let filesWithFailingTests :=
          results.files.filter (fun f => f.tests.any (fun t => !t.success))
        let cur := addFailureDetails (initialAttempt σ.attempts (some results))
          (failingDetailsOf filesWithFailingTests)
        let filesToProcess :=
          if filesWithFailingTests.length > 0 then filesWithFailingTests else results.files
        (σ, .fileStep filesToProcess cur)
  | .fileStep [] _ => (σ, .afterDelay)
  | .fileStep (f :: fs) cur =>
    let acc := processFile env σ.attempts projectPath
      { history := σ.history, cur := cur, backendCalls := 0, updates := [] } f
    ({ σ with history := acc.history }, .fileStep fs acc.cur)
  | .afterDelay => (σ, .cond)
  | .finished => (σ, .finished)

/-- A configuration: the shared state plus the program counters of all
`runLoop` invocations started so far. -/
structure Config where
  shared : SharedState
  insts : List LoopPC

/-- Scheduler action: advance invocation `i` by one step. -/
def schedApply (env : OrchEnv) (maxAttempts : Nat) (projectPath : String)
    (i : Nat) (c : Config) : Config :=
  match c.insts.get? i with
  | none => c
  | some pc =>
    let r := instStep env maxAttempts projectPath pc c.shared
    { shared := r.1, insts := c.insts.set i r.2 }

/-- The debounced `onChange` handler for a `.test.ts` path (lines
48–61): reset the shared state and call `runLoop()` — starting a new
invocation regardless of any invocation already in flight. -/
def changeApply (c : Config) : Config :=
  { shared := { c.shared with attempts := 0, allTestsPassing := false, history := [] },
    insts := c.insts ++ [.cond] }

/-- One event of the interleaved system: a scheduler step of some
invocation, or a test-file change event. -/
inductive CStep (env : OrchEnv) (maxAttempts : Nat) (projectPath : String) :
    Config → Config → Prop where
  | sched (i : Nat) (c : Config) :
      CStep env maxAttempts projectPath c (schedApply env maxAttempts projectPath i c)
  | change (c : Config) :
      CStep env maxAttempts projectPath c (changeApply c)

/-- Reachability under scheduling and change events. -/
def ConfigReachable (env : OrchEnv) (maxAttempts : Nat) (projectPath : String) :
    Config → Config → Prop :=
  Relation.ReflTransGen (CStep env maxAttempts projectPath)

/-- `startTddAiLoop`'s initial configuration: fresh state, one
`runLoop` invocation (line 300). -/
def initConfig : Config :=
  { shared := { running := true, attempts := 0, allTestsPassing := false, history := [] },
    insts := [.cond] }

/-- The configuration reached by the demonstration schedule: loop A
checks the condition and suspends at `runTests`; a test-file change
event resets the state and starts loop B; B checks the condition; A and
B resume from `runTests`; B completes its per-file step; A completes
its per-file step. -/
def interleavingDemoFinal : Config :=
  schedApply envOneFileOk 10 "/p" 0
    (schedApply envOneFileOk 10 "/p" 1
      (schedApply envOneFileOk 10 "/p" 1
        (schedApply envOneFileOk 10 "/p" 0
          (schedApply envOneFileOk 10 "/p" 1
            (changeApply
              (schedApply envOneFileOk 10 "/p" 0 initConfig))))))

/-! ## Lemmas, claim theorems, counterexamples and witnesses -/

/-- When the parse-or-recover stage fails (or a pre-parse check fails),
`parseVitestOutput` returns a placeholder report. -/
theorem parseVitestOutput_of_parsedData_none (output : String)
    (h : parsedData output = none) :
    ∃ msg, parseVitestOutput output = createEmptyTestResults msg := by
  unfold parsedData at h
  unfold parseVitestOutput
  split
  · exact ⟨_, rfl⟩
  · next htrim =>
    rw [if_neg htrim] at h
    split
    · exact ⟨_, rfl⟩
    · next s hfirst =>
      rw [hfirst] at h
      split
      · exact ⟨_, rfl⟩
      · next e hlast =>
        rw [hlast] at h
        have h2 : recoverData (jsSubstring output.data s (e + 1)) = none := h
        split
        · exact ⟨_, rfl⟩
        · next d hrec =>
          rw [hrec] at h2
          exact absurd h2 (by simp)

/-- **C10.** Every input on which the Normalizer takes one of its
placeholder branches (empty or whitespace-only input, no brace found,
or JSON that neither parses strictly nor through the recovery scan,
i.e. `parsedData` is `none`) yields exactly the
`createEmptyTestResults` report: summary `total = 0`, `passed = 0`,
`failed = 1` with `summary.error` set, and a single FileResult named
`error` holding a single failing test — so `summary.failed` exceeds
`summary.total`, and `summary.total` differs from the number of tests
listed in `files`. -/
theorem placeholderReportShape (output : String)
    (h : (parsedData output).isNone = true) :
    ((parseVitestOutput output).summary.error).isSome = true ∧
    jnumEq (some (parseVitestOutput output).summary.total) 0 = true ∧
    jnumEq (some (parseVitestOutput output).summary.passed) 0 = true ∧
    jnumEq (some (parseVitestOutput output).summary.failed) 1 = true ∧
    (parseVitestOutput output).files.map
      (fun f => (jsToString f.file, f.success,
        f.tests.map (fun t => (jsToString t.name, t.success, t.error.isSome)))) =
      [("error", false, [("Error", false, true)])] ∧
    jvalNumLt (parseVitestOutput output).summary.total
      (parseVitestOutput output).summary.failed = true ∧
    jnumEq (some (parseVitestOutput output).summary.total)
      (((parseVitestOutput output).files.map (fun f => f.tests.length)).sum : Int) = false := by
  obtain ⟨msg, hmsg⟩ :=
    parseVitestOutput_of_parsedData_none output (Option.isNone_iff_eq_none.mp h)
  rw [hmsg]
  exact ⟨rfl, rfl, rfl, rfl, rfl, rfl, rfl⟩

/-- Witness for C10 at the concrete input `"no json here"`. -/
theorem placeholderReportShape_witness :
    ((parseVitestOutput "no json here").summary.error).isSome = true :=
  (placeholderReportShape "no json here" (by decide)).1

/-- **C3, counterexample.** Under the object-based `testResults`
recognizer, a file whose runner-supplied `failures` counter is `0` but
which contains a test with status `failed` is marked `success = true`
while containing a test with `success = false` — refuting the claim
that the file-level flag is recomputed from per-test flags under every
recognizer. -/
theorem objectFormatSuccessDisagreesWithTests :
    (parseVitestOutput "\x7b\"testResults\": \x7b\"a.test.ts\": \x7b\"failures\": 0, \"tests\": [\x7b\"name\": \"t\", \"status\": \"failed\"\x7d]\x7d\x7d\x7d").files.map
      (fun f => (f.success, f.tests.map (fun t => t.success))) = [(true, [false])] ∧
    ¬ (∀ f ∈ (parseVitestOutput "\x7b\"testResults\": \x7b\"a.test.ts\": \x7b\"failures\": 0, \"tests\": [\x7b\"name\": \"t\", \"status\": \"failed\"\x7d]\x7d\x7d\x7d").files,
        (f.success = true ↔ ∀ t ∈ f.tests, t.success = true)) := by
  refine ⟨by decide, fun h => ?_⟩
  set r := parseVitestOutput "\x7b\"testResults\": \x7b\"a.test.ts\": \x7b\"failures\": 0, \"tests\": [\x7b\"name\": \"t\", \"status\": \"failed\"\x7d]\x7d\x7d\x7d" with hr
  have hne : r.files ≠ [] :=
    List.ne_nil_of_length_pos (by rw [hr]; decide)
  have hmemf := List.head!_mem_self hne
  have hiff := h r.files.head! hmemf
  have hsucc : r.files.head!.success = true := by rw [hr]; decide
  have htne : r.files.head!.tests ≠ [] :=
    List.ne_nil_of_length_pos (by rw [hr]; decide)
  have := hiff.mp hsucc r.files.head!.tests.head! (List.head!_mem_self htne)
  rw [hr] at this
  exact absurd this (by decide)

/-- Every element of a successful `exMap` run is the successful image
of an element of the input list. -/
theorem exMap_ok_mem {α β : Type} (f : α → Except String β) (l : List α)
    (bs : List β) (h : exMap f l = .ok bs) :
    ∀ b ∈ bs, ∃ a ∈ l, f a = .ok b := by
  induction l generalizing bs with
  | nil =>
    injection h with h
    subst h
    intro b hb
    exact absurd hb (List.not_mem_nil b)
  | cons a rest ih =>
    simp only [exMap] at h
    split at h
    · cases h
    · next b0 hfa =>
      split at h
      · cases h
      · next bs0 hrest =>
        injection h with h
        subst h
        intro b hb
        rcases List.mem_cons.mp hb with hb | hb
        · exact ⟨a, List.mem_cons_self a rest, hb ▸ hfa⟩
        · obtain ⟨a2, ha2, hfa2⟩ := ih bs0 hrest b hb
          exact ⟨a2, List.mem_cons_of_mem a ha2, hfa2⟩

/-- A successfully produced file of the array-based recognizer carries
the recomputed success flag. -/
theorem arrayOneFile_ok (idx : Nat) (fr : JVal) (f : TestFileResult)
    (h : arrayOneFile idx fr = .ok f) :
    f.success = !(f.tests.any (fun t => !t.success)) := by
  unfold arrayOneFile at h
  split at h
  · cases h
  · cases he : exMap arrayOneTest (rawArr (fr.getF "assertionResults")) with
    | error e => rw [he] at h; cases h
    | ok tt =>
      rw [he] at h
      injection h with h
      subst h
      rfl

/-- **C3, amended.** On every file list the array-based `testResults`
recognizer or the grouped flat `results` recognizer actually produces
(that is, whenever the recognizer completes without throwing),
file-level `success` is recomputed from the per-test flags: true iff no
contained test has `success = false`.  The object-keyed, `files`-array
and `suites` recognizers instead trust runner-supplied fields, which
can disagree. -/
theorem successRecomputedForArrayAndGroupedFormats :
    (∀ frs : List JVal, ∀ fs : List TestFileResult, arrayTestResults frs = .ok fs →
      ∀ f ∈ fs, (f.success = true ↔ ∀ t ∈ f.tests, t.success = true)) ∧
    (∀ rs : List JVal, ∀ fs : List TestFileResult, groupedResults rs = .ok fs →
      ∀ f ∈ fs, (f.success = true ↔ ∀ t ∈ f.tests, t.success = true)) := by
  constructor
  · intro frs fs h f hf
    obtain ⟨p, _, hp⟩ := exMap_ok_mem _ _ _ h f hf
    rw [arrayOneFile_ok p.1 p.2 f hp]
    simp
  · intro rs fs h f hf
    unfold groupedResults at h
    cases hg : groupFold rs [] with
    | error e => rw [hg] at h; cases h
    | ok m =>
      rw [hg] at h
      injection h with h
      subst h
      simp only [List.mem_map] at hf
      obtain ⟨p, _, rfl⟩ := hf
      simp [groupedFile, List.all_eq_true, List.mem_map]

/-- Witness for C3 (amended): the array-based recognizer on a concrete
one-file input, where the derived flag is true because the only test
passed. -/
theorem successRecomputedForArrayAndGroupedFormats_witness :
    ((⟨.jstr "a.test.ts", true,
        [⟨.jstr "t1", true, none, none, jnum0, none⟩]⟩ : TestFileResult).success = true ↔
      ∀ t ∈ (⟨.jstr "a.test.ts", true,
        [⟨.jstr "t1", true, none, none, jnum0, none⟩]⟩ : TestFileResult).tests,
        t.success = true) :=
  successRecomputedForArrayAndGroupedFormats.1
    [.jobj [("name", .jstr "a.test.ts"),
      ("assertionResults", .jarr [.jobj [("fullName", .jstr "t1"),
        ("status", .jstr "passed")]])]]
    [⟨.jstr "a.test.ts", true, [⟨.jstr "t1", true, none, none, jnum0, none⟩]⟩]
    rfl _ (List.mem_singleton.mpr rfl)

/-! Auxiliary lemmas for the insertion-ordered count map. -/

theorem mapGet_mapSet_self (m : List (String × Nat)) (k : String) (v : Nat) :
    mapGet (mapSet m k v) k = some v := by
  induction m with
  | nil => simp [mapSet, mapGet]
  | cons e rest ih =>
    obtain ⟨k0, c⟩ := e
    by_cases h : k0 = k
    · simp [mapSet, mapGet, h]
    · simp [mapSet, mapGet, h, ih]

theorem mapGet_mapSet_other (m : List (String × Nat)) (k k' : String) (v : Nat)
    (h : k' ≠ k) : mapGet (mapSet m k v) k' = mapGet m k' := by
  induction m with
  | nil =>
    simp only [mapSet, mapGet]
    rw [if_neg (fun hh => h hh.symm)]
  | cons e rest ih =>
    obtain ⟨k0, c⟩ := e
    simp only [mapSet]
    by_cases h0 : k0 = k
    · rw [if_pos h0]
      have hne : k0 ≠ k' := by rw [h0]; exact fun hh => h hh.symm
      simp only [mapGet]
      rw [if_neg hne, if_neg hne]
    · rw [if_neg h0]
      simp only [mapGet]
      by_cases h1 : k0 = k'
      · rw [if_pos h1, if_pos h1]
      · rw [if_neg h1, if_neg h1, ih]

/-- Folding `incrKey` turns lookups into occurrence counts. -/
theorem mapGet_foldl_incrKey (l : List String) :
    ∀ (m : List (String × Nat)) (k : String),
      mapGet (l.foldl incrKey m) k =
        (match mapGet m k with
         | some c => some (c + l.count k)
         | none => if l.count k = 0 then none else some (l.count k)) := by
  induction l with
  | nil =>
    intro m k
    cases h : mapGet m k <;> simp [h]
  | cons x l ih =>
    intro m k
    rw [List.foldl_cons, ih]
    by_cases hxk : x = k
    · subst hxk
      rw [show mapGet (incrKey m x) x = some ((mapGet m x).getD 0 + 1) from
        mapGet_mapSet_self m x _]
      cases h : mapGet m x with
      | none => simp [h, List.count_cons]; omega
      | some c => simp [h, List.count_cons]; omega
    · rw [show mapGet (incrKey m x) k = mapGet m k from
        mapGet_mapSet_other m x k _ (fun hh => hxk hh.symm)]
      have hkx : ¬ k = x := fun hh => hxk hh.symm
      cases h : mapGet m k with
      | none => simp [h, List.count_cons, hkx]
      | some c => simp [h, List.count_cons, hkx]

/-- `mapSet` on a present key keeps the key list unchanged. -/
theorem keys_mapSet_mem (m : List (String × Nat)) (k : String) (v : Nat)
    (hk : k ∈ m.map Prod.fst) :
    (mapSet m k v).map Prod.fst = m.map Prod.fst := by
  induction m with
  | nil => simp at hk
  | cons e rest ih =>
    obtain ⟨k0, c⟩ := e
    simp only [mapSet]
    by_cases h0 : k0 = k
    · rw [if_pos h0]
      simp
    · rw [if_neg h0]
      simp only [List.map_cons]
      rw [ih]
      rcases List.mem_cons.mp hk with hk0 | hk0
      · exact absurd hk0.symm h0
      · exact hk0

/-- `mapSet` on a fresh key appends it. -/
theorem keys_mapSet_not_mem (m : List (String × Nat)) (k : String) (v : Nat)
    (hk : k ∉ m.map Prod.fst) :
    (mapSet m k v).map Prod.fst = m.map Prod.fst ++ [k] := by
  induction m with
  | nil => simp [mapSet]
  | cons e rest ih =>
    obtain ⟨k0, c⟩ := e
    simp only [mapSet]
    by_cases h0 : k0 = k
    · exact absurd (by simp [h0]) hk
    · rw [if_neg h0]
      simp only [List.map_cons, List.cons_append]
      rw [ih (fun hmem => hk (by simp [hmem]))]

/-- `mapSet` keeps the key list duplicate-free. -/
theorem nodupKeys_mapSet (m : List (String × Nat)) (k : String) (v : Nat)
    (hnd : (m.map Prod.fst).Nodup) :
    ((mapSet m k v).map Prod.fst).Nodup := by
  by_cases hk : k ∈ m.map Prod.fst
  · rw [keys_mapSet_mem m k v hk]; exact hnd
  · rw [keys_mapSet_not_mem m k v hk]
    simp [List.nodup_append, hnd, hk]

/-- Built count maps have duplicate-free keys. -/
theorem nodupKeys_foldl_incrKey (l : List String) :
    ∀ m : List (String × Nat), (m.map Prod.fst).Nodup →
      (((l.foldl incrKey m)).map Prod.fst).Nodup := by
  induction l with
  | nil => intro m h; exact h
  | cons x l ih =>
    intro m h
    rw [List.foldl_cons]
    exact ih _ (nodupKeys_mapSet m x _ h)

/-- On key-distinct maps, membership coincides with lookup. -/
theorem mem_iff_mapGet (m : List (String × Nat)) (k : String) (c : Nat)
    (hnd : (m.map Prod.fst).Nodup) :
    (k, c) ∈ m ↔ mapGet m k = some c := by
  induction m with
  | nil => simp [mapGet]
  | cons e rest ih =>
    obtain ⟨k0, c0⟩ := e
    simp only [List.map_cons, List.nodup_cons] at hnd
    by_cases h0 : k0 = k
    · subst h0
      simp only [mapGet, List.mem_cons, if_true]
      constructor
      · rintro (he | hmem)
        · injection he with h1 h2
          rw [h2]
        · exact absurd (List.mem_map_of_mem Prod.fst hmem) hnd.1
      · intro he
        obtain rfl : c0 = c := by injection he
        exact Or.inl rfl
    · simp only [mapGet, if_neg h0, List.mem_cons]
      rw [← ih hnd.2]
      constructor
      · rintro (he | hmem)
        · injection he with h1 h2
          exact absurd h1.symm h0
        · exact hmem
      · exact Or.inr

/-- Indexing with a default stays inside the list. -/
theorem getD_mem_of_lt {α : Type} (l : List α) (j : Nat) (d : α) (hj : j < l.length) :
    l.getD j d ∈ l := by
  induction l generalizing j with
  | nil => exact absurd hj (by simp)
  | cons a t ih =>
    cases j with
    | zero => exact List.mem_cons_self a t
    | succ k => exact List.mem_cons_of_mem a (ih k (Nat.lt_of_succ_lt_succ hj))

/-- Invariant of the best-attempt loop: the final score bounds every
scanned score, and the final index is either the untouched initial one
or the first index attaining the final (strictly improved) score. -/
theorem bestScanAux_spec (rest : List PrevAttempt) :
    ∀ (i best : Nat) (most : Int), 0 ≤ most →
      0 ≤ (bestScanAux rest i best most).2 ∧
      most ≤ (bestScanAux rest i best most).2 ∧
      (∀ j, j < rest.length →
        getPassing (rest.getD j dummyAttempt) ≤ (bestScanAux rest i best most).2) ∧
      (bestScanAux rest i best most = (best, most) ∨
        ∃ j, j < rest.length ∧ (bestScanAux rest i best most).1 = i + j ∧
          (bestScanAux rest i best most).2 = getPassing (rest.getD j dummyAttempt) ∧
          most < (bestScanAux rest i best most).2 ∧
          ∀ k, k < j →
            getPassing (rest.getD k dummyAttempt) < (bestScanAux rest i best most).2) := by
  induction rest with
  | nil =>
    intro i best most h0
    refine ⟨h0, le_refl _, ?_, Or.inl rfl⟩
    intro j hj
    exact absurd hj (Nat.not_lt_zero j)
  | cons p rs ih =>
    intro i best most h0
    simp only [bestScanAux]
    by_cases hgt : getPassing p > most
    · rw [if_pos hgt]
      obtain ⟨ih0, ihm, ihall, ihor⟩ := ih (i + 1) i (getPassing p) (le_of_lt (lt_of_le_of_lt h0 hgt))
      refine ⟨ih0, le_of_lt (lt_of_lt_of_le hgt ihm), ?_, ?_⟩
      · intro j hj
        cases j with
        | zero => exact ihm
        | succ k => exact ihall k (Nat.lt_of_succ_lt_succ hj)
      · right
        rcases ihor with heq | ⟨j, hj, h1, h2, h3, h4⟩
        · refine ⟨0, Nat.succ_pos _, ?_, ?_, ?_, ?_⟩
          · rw [heq]
            rfl
          · rw [heq]
            rfl
          · rw [heq]; exact hgt
          · intro k hk; exact absurd hk (Nat.not_lt_zero k)
        · refine ⟨j + 1, Nat.succ_lt_succ hj, ?_, h2, lt_trans hgt h3, ?_⟩
          · rw [h1]; omega
          · intro k hk
            cases k with
            | zero => exact h3
            | succ k2 => exact h4 k2 (Nat.lt_of_succ_lt_succ hk)
    · rw [if_neg hgt]
      have hple : getPassing p ≤ most := not_lt.mp hgt
      obtain ⟨ih0, ihm, ihall, ihor⟩ := ih (i + 1) best most h0
      refine ⟨ih0, ihm, ?_, ?_⟩
      · intro j hj
        cases j with
        | zero => exact le_trans hple ihm
        | succ k => exact ihall k (Nat.lt_of_succ_lt_succ hj)
      · rcases ihor with heq | ⟨j, hj, h1, h2, h3, h4⟩
        · exact Or.inl heq
        · right
          refine ⟨j + 1, Nat.succ_lt_succ hj, ?_, h2, h3, ?_⟩
          · rw [h1]; omega
          · intro k hk
            cases k with
            | zero => exact lt_of_le_of_lt hple h3
            | succ k2 => exact h4 k2 (Nat.lt_of_succ_lt_succ hk)

/-- **C7.** Over any non-empty history (with the non-negative passing
counts every real report produces), `buildPrompt`'s best-attempt
selection picks an index of the history whose passing count is maximal,
and no earlier index attains that count (ties keep the earliest); on
counts `[2, 5, 5, 1]` it picks index 1. -/
theorem bestAttemptHighestEarliest :
    (∀ pas : List PrevAttempt, pas ≠ [] → (∀ p ∈ pas, 0 ≤ getPassing p) →
      (bestAttemptScan pas).1 < pas.length ∧
      (bestAttemptScan pas).2 =
        getPassing (pas.getD (bestAttemptScan pas).1 dummyAttempt) ∧
      (∀ j, j < pas.length →
        getPassing (pas.getD j dummyAttempt) ≤
          getPassing (pas.getD (bestAttemptScan pas).1 dummyAttempt)) ∧
      (∀ j, j < (bestAttemptScan pas).1 →
        getPassing (pas.getD j dummyAttempt) <
          getPassing (pas.getD (bestAttemptScan pas).1 dummyAttempt))) ∧
    (bestAttemptScan [mkAttemptWithPassing 2, mkAttemptWithPassing 5,
      mkAttemptWithPassing 5, mkAttemptWithPassing 1]).1 = 1 := by
  constructor
  · intro pas h hpos
    obtain ⟨h0, hm, hall, hor⟩ := bestScanAux_spec pas 0 0 0 (le_refl 0)
    rcases hor with heq | ⟨j, hj, h1, h2, h3, h4⟩
    · have hscan : bestAttemptScan pas = (0, 0) := heq
      have hlen : 0 < pas.length := List.length_pos.mpr h
      have hp0 : getPassing (pas.getD 0 dummyAttempt) = 0 := by
        have hle := hall 0 hlen
        rw [heq] at hle
        exact le_antisymm hle (hpos _ (getD_mem_of_lt pas 0 dummyAttempt hlen))
      rw [hscan]
      refine ⟨hlen, hp0.symm, ?_, ?_⟩
      · intro j hj
        have := hall j hj
        rw [heq] at this
        rw [hp0]
        exact this
      · intro j hj
        exact absurd hj (Nat.not_lt_zero j)
    · have hi : (bestAttemptScan pas).1 = j := by
        have := h1
        simpa using this
      rw [hi]
      refine ⟨hj, ?_, ?_, ?_⟩
      · rw [← h2]; rfl
      · intro k hk
        rw [← h2]
        exact hall k hk
      · intro k hk
        rw [← h2]
        exact h4 k hk
  · decide

/-- Witness for C7: the general part applied to the `[2, 5, 5, 1]`
history. -/
theorem bestAttemptHighestEarliest_witness :
    (bestAttemptScan [mkAttemptWithPassing 2, mkAttemptWithPassing 5,
      mkAttemptWithPassing 5, mkAttemptWithPassing 1]).1 <
      [mkAttemptWithPassing 2, mkAttemptWithPassing 5,
        mkAttemptWithPassing 5, mkAttemptWithPassing 1].length :=
  (bestAttemptHighestEarliest.1 _ (by decide) (by decide)).1

/-- **C6.** Over any non-empty history, `persistentErrors` returns
exactly the strings `"name: error"` whose occurrence count across all
attempts' failure details reaches `Math.ceil(length / 2)` — in
particular, over the four-attempt example an error occurring twice is
included and an error occurring once is excluded. -/
theorem persistentErrorsQuorum :
    (∀ pas : List PrevAttempt, pas ≠ [] → ∀ key : String,
      (key ∈ persistentErrors pas ↔
        (pas.length + 1) / 2 ≤ (allFailureKeys pas).count key)) ∧
    "A: boom" ∈ persistentErrors quorumExampleHistory ∧
    "B: x" ∉ persistentErrors quorumExampleHistory := by
  have main : ∀ pas : List PrevAttempt, pas ≠ [] → ∀ key : String,
      (key ∈ persistentErrors pas ↔
        (pas.length + 1) / 2 ≤ (allFailureKeys pas).count key) := by
    intro pas h key
    have hth : 1 ≤ (pas.length + 1) / 2 := by
      have : 1 ≤ pas.length := List.length_pos.mpr h
      omega
    have hnd := nodupKeys_foldl_incrKey (allFailureKeys pas) [] (by simp)
    have hget2 : mapGet (commonErrorsMap pas) key =
        (if (allFailureKeys pas).count key = 0 then none
         else some ((allFailureKeys pas).count key)) :=
      mapGet_foldl_incrKey (allFailureKeys pas) [] key
    unfold persistentErrors
    constructor
    · intro hk
      simp only [List.mem_map] at hk
      obtain ⟨⟨k0, c0⟩, he, heq⟩ := hk
      obtain rfl : k0 = key := heq
      rw [List.mem_filter] at he
      obtain ⟨hmem, hcnt⟩ := he
      have hcnt' : (pas.length + 1) / 2 ≤ c0 := of_decide_eq_true hcnt
      have hlook : mapGet (commonErrorsMap pas) k0 = some c0 :=
        (mem_iff_mapGet _ k0 c0 hnd).mp hmem
      rw [hget2] at hlook
      by_cases hc0 : (allFailureKeys pas).count k0 = 0
      · rw [if_pos hc0] at hlook
        exact absurd hlook (by simp)
      · rw [if_neg hc0] at hlook
        obtain rfl : (allFailureKeys pas).count k0 = c0 := by injection hlook
        exact hcnt'
    · intro hc
      have hcnt_pos : (allFailureKeys pas).count key ≠ 0 := by omega
      have hlook : mapGet (commonErrorsMap pas) key =
          some ((allFailureKeys pas).count key) := by
        rw [hget2, if_neg hcnt_pos]
      have hmem := (mem_iff_mapGet _ key _ hnd).mpr hlook
      exact List.mem_map.mpr ⟨(key, (allFailureKeys pas).count key),
        List.mem_filter.mpr ⟨hmem, by simpa using hc⟩, rfl⟩
  refine ⟨main, ?_, ?_⟩
  · exact (main quorumExampleHistory (by decide) "A: boom").mpr (by decide)
  · intro hmem
    exact absurd ((main quorumExampleHistory (by decide) "B: x").mp hmem) (by decide)

/-- Witness for C6: the general part applied to the example history and
the recurring key. -/
theorem persistentErrorsQuorum_witness :
    "A: boom" ∈ persistentErrors quorumExampleHistory ↔
      (quorumExampleHistory.length + 1) / 2 ≤
        (allFailureKeys quorumExampleHistory).count "A: boom" :=
  persistentErrorsQuorum.1 quorumExampleHistory (by decide) "A: boom"

/-- **C9, counterexample.** For the path `"a+b.test.ts"` (a legal file
name containing the regex metacharacter `+`), setting the override and
immediately querying it returns `false`: the stored pattern `a+b.test.ts`
does not match the path itself, refuting the claim for arbitrary
paths. -/
theorem overrideRegexMetacharFails :
    isValidationOverridden "a+b.test.ts" (setValidationOverride "a+b.test.ts" none) =
      some false := by decide

/-- Plain character lists compile to their unquantified atoms. -/
theorem compileAltF_plain (cs : List Char) (h : cs.all plainPathChar = true) :
    ∀ f, cs.length + 1 ≤ f → compileAltF f cs = some (cs.map plainAtom) := by
  induction cs with
  | nil =>
    intro f hf
    cases f with
    | zero => exact absurd hf (by omega)
    | succ f2 => rfl
  | cons c rest ih =>
    intro f hf
    cases f with
    | zero => exact absurd hf (by omega)
    | succ f2 =>
    simp only [List.all_cons, Bool.and_eq_true] at h
    obtain ⟨hc, hrest⟩ := h
    have hc' : ¬(c = '*' || c = '+' || c = '?') = true := by
      simp only [plainPathChar, Bool.not_eq_true'] at hc
      simp_all [Bool.or_eq_true]
    have hc'' : ¬(c = '\\' || c = '^' || c = '$' || c = '(' || c = ')' ||
        c = '[' || c = ']' || c = '{' || c = '}') = true := by
      simp only [plainPathChar, Bool.not_eq_true'] at hc
      simp_all [Bool.or_eq_true]
    cases rest with
    | nil =>
      simp only [compileAltF]
      rw [if_neg hc', if_neg hc'']
      rfl
    | cons q rest2 =>
      have hq : plainPathChar q = true := by
        simp only [List.all_cons, Bool.and_eq_true] at hrest
        exact hrest.1
      have hq1 : ¬ q = '*' := by
        simp only [plainPathChar, Bool.not_eq_true'] at hq
        simp_all [Bool.or_eq_true]
      have hq2 : ¬ q = '+' := by
        simp only [plainPathChar, Bool.not_eq_true'] at hq
        simp_all [Bool.or_eq_true]
      have hq3 : ¬ q = '?' := by
        simp only [plainPathChar, Bool.not_eq_true'] at hq
        simp_all [Bool.or_eq_true]
      simp only [compileAltF]
      rw [if_neg hc', if_neg hc'', if_neg hq1, if_neg hq2, if_neg hq3,
        ih hrest f2 (by simp only [List.length_cons] at hf ⊢; omega)]
      rfl

/-- `compileAlt` on plain character lists. -/
theorem compileAlt_plain (cs : List Char) (h : cs.all plainPathChar = true) :
    compileAlt cs = some (cs.map plainAtom) :=
  compileAltF_plain cs h (cs.length + 1) (Nat.le_refl _)

/-- A plain character matches its own atom. -/
theorem matchTok_plain (c : Char) (h : plainPathChar c = true) :
    matchTok (if c = '.' then RTok.anyc else RTok.lit c) c = true := by
  by_cases hdot : c = '.'
  · subst hdot
    rfl
  · rw [if_neg hdot]
    simp [matchTok]

/-- A plain string matches its own compiled atoms (given enough fuel). -/
theorem matchAtoms_self (cs : List Char) (h : cs.all plainPathChar = true) :
    ∀ f, cs.length + 1 ≤ f → matchAtoms f (cs.map plainAtom) cs = true := by
  induction cs with
  | nil =>
    intro f hf
    cases f with
    | zero => exact absurd hf (by omega)
    | succ f2 => rfl
  | cons c rest ih =>
    intro f hf
    simp only [List.all_cons, Bool.and_eq_true] at h
    obtain ⟨hc, hrest⟩ := h
    cases f with
    | zero => exact absurd hf (by omega)
    | succ f2 =>
      simp only [List.map_cons, plainAtom, matchAtoms]
      rw [matchTok_plain c hc, Bool.true_and]
      exact ih hrest f2 (by simp at hf; omega)

/-- A pattern matching at position 0 makes the unanchored search
succeed. -/
theorem searchFrom_self (cs : List Char) (h : cs.all plainPathChar = true)
    (f : Nat) (hf : 1 ≤ f) : searchFrom f (cs.map plainAtom) cs = true := by
  cases f with
  | zero => exact absurd hf (by omega)
  | succ f2 =>
    simp only [searchFrom]
    rw [matchAtoms_self cs h _ (by simp only [List.length_map]; omega)]
    simp

/-- Escaping is the identity on backslash-free strings. -/
theorem escBackslashes_plain (cs : List Char) (h : cs.all plainPathChar = true) :
    escBackslashes cs = cs := by
  induction cs with
  | nil => rfl
  | cons c rest ih =>
    simp only [List.all_cons, Bool.and_eq_true] at h
    obtain ⟨hc, hrest⟩ := h
    have hcb : ¬ c = '\\' := by
      simp only [plainPathChar, Bool.not_eq_true'] at hc
      simp_all [Bool.or_eq_true]
    simp only [escBackslashes]
    rw [if_neg hcb, ih hrest]

/-- `String.mk` distributes over append. -/
theorem stringMk_append (a b : List Char) : String.mk a ++ String.mk b = String.mk (a ++ b) :=
  rfl

/-- Folding `setValidationOverride` from a non-empty stored pattern
appends each plain path with a `|` separator. -/
theorem overrideState_from (paths : List String) :
    ∀ acc : List Char, acc ≠ [] → (∀ q ∈ paths, plainPath q = true) →
      paths.foldl (fun env q => setValidationOverride q env) (some (String.mk acc)) =
        some (String.mk (acc ++ pipeJoin paths)) := by
  induction paths with
  | nil =>
    intro acc hacc hp
    simp [pipeJoin]
  | cons p ps ih =>
    intro acc hacc hp
    rw [List.foldl_cons]
    have hplain := hp p (List.mem_cons_self p ps)
    have hallp : p.data.all plainPathChar = true := by
      simp only [plainPath, Bool.and_eq_true] at hplain
      exact hplain.2
    have hesc : escBackslashes p.data = p.data := escBackslashes_plain p.data hallp
    have hset : setValidationOverride p (some (String.mk acc)) =
        some (String.mk (acc ++ '|' :: p.data)) := by
      unfold setValidationOverride
      have hne : (some (String.mk acc)).getD "" ≠ "" := by
        simp only [Option.getD]
        intro hcontra
        exact hacc (congrArg String.data hcontra)
      rw [if_pos hne]
      simp only [Option.getD]
      rw [hesc]
      rw [show (String.mk acc ++ "|" ++ String.mk p.data) =
        String.mk ((acc ++ ['|']) ++ p.data) from rfl]
      rw [List.append_assoc]
      rfl
    rw [hset]
    rw [ih (acc ++ '|' :: p.data) (by simp)
      (fun q hq => hp q (List.mem_cons_of_mem p hq))]
    rw [show pipeJoin (p :: ps) = '|' :: (p.data ++ pipeJoin ps) from rfl]
    rw [List.append_assoc]
    rfl

/-- The stored pattern after overriding a non-empty list of plain
paths. -/
theorem overrideState_plain (p0 : String) (rest : List String)
    (hall : ∀ q ∈ p0 :: rest, plainPath q = true) :
    overrideState (p0 :: rest) = some (String.mk (p0.data ++ pipeJoin rest)) := by
  unfold overrideState
  rw [List.foldl_cons]
  have h0 := hall p0 (List.mem_cons_self p0 rest)
  simp only [plainPath, Bool.and_eq_true, decide_eq_true_eq] at h0
  have hesc : escBackslashes p0.data = p0.data := escBackslashes_plain p0.data h0.2
  have hset : setValidationOverride p0 none = some (String.mk p0.data) := by
    unfold setValidationOverride
    simp only [Option.getD]
    rw [if_neg (by simp)]
    rw [hesc]
  rw [hset]
  have hdata : p0.data ≠ [] := by
    intro hd
    apply h0.1
    cases p0 with
    | mk cs => simp at hd; rw [hd]
  exact overrideState_from rest p0.data hdata
    (fun q hq => hall q (List.mem_cons_of_mem p0 hq))

/-- Splitting a separator-free list is the identity. -/
theorem splitOnChar_no_sep (a : List Char) (h : '|' ∉ a) :
    splitOnChar '|' a = [a] := by
  induction a with
  | nil => rfl
  | cons c rest ih =>
    have hc : ¬ c = '|' := fun hc => h (hc ▸ List.mem_cons_self c rest)
    simp only [splitOnChar]
    rw [if_neg hc]
    rw [ih (fun hm => h (List.mem_cons_of_mem c hm))]

/-- Splitting after a separator-free prefix. -/
theorem splitOnChar_append (a b : List Char) (h : '|' ∉ a) :
    splitOnChar '|' (a ++ '|' :: b) = a :: splitOnChar '|' b := by
  induction a with
  | nil => simp [splitOnChar]
  | cons c rest ih =>
    have hc : ¬ c = '|' := fun hc => h (hc ▸ List.mem_cons_self c rest)
    rw [List.cons_append]
    simp only [splitOnChar]
    rw [if_neg hc]
    rw [ih (fun hm => h (List.mem_cons_of_mem c hm))]

/-- Splitting the stored pattern recovers the list of paths. -/
theorem splitOnChar_pipeJoin (rest : List String) :
    ∀ p0 : List Char, '|' ∉ p0 → (∀ q ∈ rest, '|' ∉ q.data) →
      splitOnChar '|' (p0 ++ pipeJoin rest) = p0 :: rest.map (fun q => q.data) := by
  induction rest with
  | nil =>
    intro p0 h0 hrest
    rw [show pipeJoin [] = [] from rfl, List.append_nil]
    rw [splitOnChar_no_sep p0 h0]
    rfl
  | cons q qs ih =>
    intro p0 h0 hrest
    rw [show pipeJoin (q :: qs) = '|' :: (q.data ++ pipeJoin qs) from rfl]
    rw [splitOnChar_append p0 _ h0]
    rw [ih q.data (hrest q (List.mem_cons_self q qs))
      (fun r hr => hrest r (List.mem_cons_of_mem q hr))]
    rfl

/-- A plain path contains no `|`. -/
theorem plain_no_pipe (p : String) (h : plainPath p = true) : '|' ∉ p.data := by
  intro hm
  simp only [plainPath, Bool.and_eq_true] at h
  have := List.all_eq_true.mp h.2 '|' hm
  exact absurd this (by decide)

/-- Compiling every alternative of plainly built paths succeeds. -/
theorem mapM_compileAlt (l : List (List Char))
    (h : ∀ cs ∈ l, cs.all plainPathChar = true) :
    l.mapM compileAlt = some (l.map (fun cs => cs.map plainAtom)) := by
  induction l with
  | nil => rfl
  | cons cs rest ih =>
    rw [List.mapM_cons]
    rw [compileAlt_plain cs (h cs (List.mem_cons_self cs rest))]
    rw [ih (fun cs2 hm => h cs2 (List.mem_cons_of_mem cs hm))]
    rfl

/-- **C9, amended.** For non-empty test-file paths free of regex
metacharacters, `setValidationOverride` works as the claim states:
after overriding any sequence of such paths, `isValidationOverridden`
answers `true` for each of them for the remainder of the session
(paths containing metacharacters can fail, see the counterexample). -/
theorem overridePersistsForLiteralPaths (paths : List String) (P : String)
    (hP : P ∈ paths) (hall : ∀ q ∈ paths, plainPath q = true) :
    isValidationOverridden P (overrideState paths) = some true := by
  obtain ⟨p0, rest, rfl⟩ : ∃ p0 rest, paths = p0 :: rest := by
    cases paths with
    | nil => exact absurd hP (by simp)
    | cons p0 rest => exact ⟨p0, rest, rfl⟩
  rw [overrideState_plain p0 rest hall]
  have h0 := hall p0 (List.mem_cons_self p0 rest)
  have hne : String.mk (p0.data ++ pipeJoin rest) ≠ "" := by
    intro hcontra
    have h0' : p0.data ++ pipeJoin rest = [] := congrArg String.data hcontra
    have hp0nil : p0.data = [] := (List.append_eq_nil.mp h0').1
    simp only [plainPath, Bool.and_eq_true, decide_eq_true_eq] at h0
    apply h0.1
    cases p0 with
    | mk cs =>
      rw [show (String.mk cs).data = cs from rfl] at hp0nil
      rw [hp0nil]
  simp only [isValidationOverridden]
  rw [if_neg hne]
  unfold jsRegexTest
  rw [show (String.mk (p0.data ++ pipeJoin rest)).data = p0.data ++ pipeJoin rest from rfl]
  rw [splitOnChar_pipeJoin rest p0.data (plain_no_pipe p0 h0)
    (fun q hq => plain_no_pipe q (hall q (List.mem_cons_of_mem p0 hq)))]
  rw [mapM_compileAlt _ (by
    intro cs hcs
    rcases List.mem_cons.mp hcs with hcs | hcs
    · subst hcs
      have := hall p0 (List.mem_cons_self p0 rest)
      simp only [plainPath, Bool.and_eq_true] at this
      exact this.2
    · obtain ⟨q, hq, rfl⟩ := List.mem_map.mp hcs
      have := hall q (List.mem_cons_of_mem p0 hq)
      simp only [plainPath, Bool.and_eq_true] at this
      exact this.2)]
  have hPall : P.data.all plainPathChar = true := by
    have := hall P hP
    simp only [plainPath, Bool.and_eq_true] at this
    exact this.2
  have hmem : P.data.map plainAtom ∈
      ((p0.data :: rest.map (fun q => q.data)).map (fun cs => cs.map plainAtom)) := by
    apply List.mem_map_of_mem
    rcases List.mem_cons.mp hP with hP0 | hP0
    · subst hP0; exact List.mem_cons_self _ _
    · exact List.mem_cons_of_mem _ (List.mem_map_of_mem _ hP0)
  have hsearch : searchFrom (P.data.length + 1) (P.data.map plainAtom) P.data = true :=
    searchFrom_self P.data hPall _ (by omega)
  exact congrArg some (List.any_eq_true.mpr ⟨P.data.map plainAtom, hmem, hsearch⟩)

/-- Witness for C9 (amended): two plain paths overridden in sequence;
the first remains overridden after the second is set. -/
theorem overridePersistsForLiteralPaths_witness :
    isValidationOverridden "src/a.test.ts"
      (overrideState ["src/a.test.ts", "lib/b.test.ts"]) = some true :=
  overridePersistsForLiteralPaths ["src/a.test.ts", "lib/b.test.ts"] "src/a.test.ts"
    (by decide) (by decide)

/-- Every iteration increments the attempt counter. -/
theorem runIteration_attempts (env : OrchEnv) (projectPath : String) (s : LoopState) :
    (runIteration env projectPath s).attempts = s.attempts + 1 := by
  unfold runIteration
  split
  · rfl
  · split
    · rfl
    · rfl

/-- Iterations never change `running` (only `stop()` does, outside the
loop). -/
theorem runIteration_running (env : OrchEnv) (projectPath : String) (s : LoopState) :
    (runIteration env projectPath s).running = s.running := by
  unfold runIteration
  split
  · rfl
  · split
    · rfl
    · rfl

/-- When the runner does not report success, the iteration leaves
`allTestsPassing` unchanged. -/
theorem runIteration_notPassing (env : OrchEnv) (projectPath : String) (s : LoopState)
    (h : (env.runTests (s.attempts + 1)).success = false) :
    (runIteration env projectPath s).allTestsPassing = s.allTestsPassing := by
  unfold runIteration
  rw [h]
  simp only [Bool.false_eq_true, if_false]
  split
  · rfl
  · rfl

/-- **C4, counterexample.** A test run whose Report shows every file
with `success = true` but whose runner exit code is non-zero does *not*
transition the orchestrator to `Succeeded`: with `maxAttempts = 1` the
loop ends in `MaxAttemptsReached` instead (the generation backend is
indeed never invoked, but only because the early-return inside
`generateImplementation` fires). -/
theorem allPassingReportWithFailedExitDoesNotSucceed :
    (∀ f ∈ reportAllPass.files, f.success = true) ∧
    (runLoop envExitFail "/p" 1 initLoopState).allTestsPassing = false ∧
    (runLoop envExitFail "/p" 1 initLoopState).updates.contains .success = false ∧
    (runLoop envExitFail "/p" 1 initLoopState).updates.getLast? =
      some .max_attempts_reached ∧
    (runLoop envExitFail "/p" 1 initLoopState).backendCalls = 0 := by
  exact ⟨by decide, by decide, by decide, by decide, by decide⟩

/-- **C4, amended.** The success transition keys on the runner's exit
code, not on the report contents: whenever the first test run reports
exit-code success, the orchestrator reaches the `Succeeded` terminal
state on attempt 1 — `allTestsPassing` set, exactly the
`running_tests`/`success` updates emitted, a single terminal attempt
recorded, and the generation backend never invoked. -/
theorem exitSuccessTransitionsToSucceeded (env : OrchEnv) (projectPath : String)
    (maxAttempts : Nat) (hmax : 1 ≤ maxAttempts)
    (hsucc : (env.runTests 1).success = true) :
    (runLoop env projectPath maxAttempts initLoopState).allTestsPassing = true ∧
    (runLoop env projectPath maxAttempts initLoopState).attempts = 1 ∧
    (runLoop env projectPath maxAttempts initLoopState).backendCalls = 0 ∧
    (runLoop env projectPath maxAttempts initLoopState).updates =
      [.running_tests, .success] ∧
    (runLoop env projectPath maxAttempts initLoopState).history.map
      (fun a => a.success) = [some true] := by
  obtain ⟨m, rfl⟩ : ∃ m, maxAttempts = m + 1 := ⟨maxAttempts - 1, by omega⟩
  have h1 : runIteration env projectPath initLoopState =
      { running := true, attempts := 1, allTestsPassing := true,
        history := [{ initialAttempt 1 (env.runTests 1).results with success := some true }],
        updates := [.running_tests, .success], backendCalls := 0 } := by
    unfold runIteration
    rw [show initLoopState.attempts + 1 = 1 from rfl, hsucc]
    rfl
  have hL : runLoop env projectPath (m + 1) initLoopState =
      runLoopFuel env projectPath (m + 1) (m + 2) initLoopState := by
    unfold runLoop
    congr 1
  rw [hL]
  rw [show m + 2 = (m + 1) + 1 from rfl]
  simp only [runLoopFuel]
  rw [if_pos (show initLoopState.running = true ∧
      ¬initLoopState.allTestsPassing = true ∧ initLoopState.attempts < m + 1 from
    ⟨rfl, by decide, by show (0 : Nat) < m + 1; omega⟩)]
  rw [h1]
  cases m with
  | zero =>
    rw [show (0 : Nat) + 1 = 0 + 1 from rfl]
    simp only [runLoopFuel]
    rw [if_neg (by simp)]
    rw [if_neg (by simp)]
    exact ⟨rfl, rfl, rfl, rfl, rfl⟩
  | succ m2 =>
    simp only [runLoopFuel]
    rw [if_neg (by simp)]
    rw [if_neg (by simp)]
    exact ⟨rfl, rfl, rfl, rfl, rfl⟩

/-- Witness for C4 (amended) on a concrete exit-code-success
environment. -/
theorem exitSuccessTransitionsToSucceeded_witness :
    (runLoop envExitSuccess "/p" 1 initLoopState).allTestsPassing = true ∧
    (runLoop envExitSuccess "/p" 1 initLoopState).backendCalls = 0 :=
  ⟨(exitSuccessTransitionsToSucceeded envExitSuccess "/p" 1 (by omega) rfl).1,
   (exitSuccessTransitionsToSucceeded envExitSuccess "/p" 1 (by omega) rfl).2.2.1⟩

/-- **C5, counterexample.** With `maxAttempts = 3` and a test run that
always reports a failing test, the loop does perform 3 iterations and
end in `MaxAttemptsReached` — but when generation fails each time, no
attempt record is ever pushed, so `history.length = 0`, not 3. -/
theorem threeIterationsButEmptyHistory :
    (runLoop envGenFails "/p" 3 initLoopState).attempts = 3 ∧
    (runLoop envGenFails "/p" 3 initLoopState).allTestsPassing = false ∧
    (runLoop envGenFails "/p" 3 initLoopState).updates.getLast? =
      some .max_attempts_reached ∧
    (runLoop envGenFails "/p" 3 initLoopState).history.length = 0 := by
  exact ⟨by decide, by decide, by decide, by decide⟩

/-- **C5, amended.** With `maxAttempts = 3` and a runner that never
reports exit-code success, the loop performs exactly 3 iterations
(attempt counter 3, one increment per iteration) and ends in
`MaxAttemptsReached`.  The history grows by one record per file whose
generation and apply both succeed: it has length 3 when each iteration
successfully processes exactly one failing file, and length 0 when
generation always fails. -/
theorem threeAttemptsMaxReachedHistoryPerApply :
    (∀ (env : OrchEnv) (projectPath : String),
      (∀ n, (env.runTests n).success = false) →
      (runLoop env projectPath 3 initLoopState).attempts = 3 ∧
      (runLoop env projectPath 3 initLoopState).allTestsPassing = false ∧
      (runLoop env projectPath 3 initLoopState).updates.getLast? =
        some .max_attempts_reached) ∧
    (runLoop envOneFileOk "/p" 3 initLoopState).history.length = 3 ∧
    (runLoop envGenFails "/p" 3 initLoopState).history.length = 0 := by
  refine ⟨?_, by decide, by decide⟩
  intro env p h
  have step : ∀ s : LoopState, s.running = true → s.allTestsPassing = false →
      s.attempts < 3 → ∀ f, runLoopFuel env p 3 (f + 1) s =
        runLoopFuel env p 3 f (runIteration env p s) := by
    intro s hr hp hlt f
    simp only [runLoopFuel]
    rw [if_pos ⟨hr, by simp [hp], hlt⟩]
  have exitStep : ∀ s : LoopState, s.attempts = 3 → s.allTestsPassing = false →
      ∀ f, runLoopFuel env p 3 (f + 1) s =
        { s with updates := s.updates ++ [.max_attempts_reached] } := by
    intro s ha hp f
    simp only [runLoopFuel]
    rw [if_neg (fun hc => by rw [ha] at hc; exact absurd hc.2.2 (by omega))]
    rw [if_pos ⟨by omega, by simp [hp]⟩]
  set s1 := runIteration env p initLoopState with hs1
  set s2 := runIteration env p s1 with hs2
  set s3 := runIteration env p s2 with hs3
  have ha1 : s1.attempts = 1 := by rw [hs1, runIteration_attempts]; rfl
  have hr1 : s1.running = true := by rw [hs1, runIteration_running]; rfl
  have hp1 : s1.allTestsPassing = false := by
    rw [hs1, runIteration_notPassing env p initLoopState (h _)]; rfl
  have ha2 : s2.attempts = 2 := by rw [hs2, runIteration_attempts, ha1]
  have hr2 : s2.running = true := by rw [hs2, runIteration_running, hr1]
  have hp2 : s2.allTestsPassing = false := by
    rw [hs2, runIteration_notPassing env p s1 (h _), hp1]
  have ha3 : s3.attempts = 3 := by rw [hs3, runIteration_attempts, ha2]
  have hp3 : s3.allTestsPassing = false := by
    rw [hs3, runIteration_notPassing env p s2 (h _), hp2]
  have hloop : runLoop env p 3 initLoopState =
      { s3 with updates := s3.updates ++ [.max_attempts_reached] } := by
    unfold runLoop
    rw [show 3 + 1 - initLoopState.attempts = 3 + 1 from rfl]
    rw [step initLoopState rfl rfl (by decide) 3]
    rw [← hs1]
    rw [step s1 hr1 hp1 (by omega) 2]
    rw [← hs2]
    rw [step s2 hr2 hp2 (by omega) 1]
    rw [← hs3]
    rw [exitStep s3 ha3 hp3 0]
  rw [hloop]
  refine ⟨by simpa using ha3, by simpa using hp3, ?_⟩
  simp only []
  exact List.getLast?_concat _

/-- Witness for C5 (amended): the general part applied to the concrete
always-failing environment. -/
theorem threeAttemptsMaxReachedHistoryPerApply_witness :
    (runLoop envGenFails "/p" 3 initLoopState).attempts = 3 :=
  (threeAttemptsMaxReachedHistoryPerApply.1 envGenFails "/p" (fun _ => rfl)).1

/-- **C8 (code bug).** Attempt records appended to the history are not
immutable: in an iteration with two failing files, the record appended
while processing the first file (`fileUpdated = "/p/a.ts"`) is
overwritten by the second file's processing (`fileUpdated = "/p/b.ts"`),
because both pushes alias the one mutated `currentAttempt` object — the
history ends as two references to a single record holding only the
second file's data. -/
theorem historyEntryMutatedByLaterFileStep :
    aliasDemoAfterFirst.history = [0] ∧
    (aliasDemoAfterFirst.valueAt 0).fileUpdated = some "/p/a.ts" ∧
    (aliasDemoAfterFirst.valueAt 0).implementation = "generated code" ∧
    aliasDemoAfterSecond.history = [0, 0] ∧
    (aliasDemoAfterSecond.valueAt 0).fileUpdated = some "/p/b.ts" := by
  exact ⟨by decide, by decide, by decide, by decide, by decide⟩

/-- **C1 (code bug).** A change event arriving while an iteration is in
flight *does* spawn a second concurrent loop: from the initial
configuration there is a schedule — loop A passes the while check and
suspends at `runTests`; the event fires (reset + new `runLoop`); loop B
passes the check; both resume and process the same failing file — after
which the shared history holds two attempt records with the *same*
attempt number 1 for the *same* target file, one pushed by each loop:
exactly the duplicate sequence numbers the claim rules out. -/
theorem concurrentLoopDuplicateAttempts :
    ∃ c : Config, ConfigReachable envOneFileOk 10 "/p" initConfig c ∧
      c.shared.history.map (fun a => (a.attempt, a.fileUpdated)) =
        [(1, some "/p/a.ts"), (1, some "/p/a.ts")] ∧
      c.insts.length = 2 := by
  refine ⟨interleavingDemoFinal, ?_, by decide, by decide⟩
  exact Relation.ReflTransGen.tail
    (Relation.ReflTransGen.tail
      (Relation.ReflTransGen.tail
        (Relation.ReflTransGen.tail
          (Relation.ReflTransGen.tail
            (Relation.ReflTransGen.tail
              (Relation.ReflTransGen.tail Relation.ReflTransGen.refl
                (CStep.sched 0 initConfig))
              (CStep.change _))
            (CStep.sched 1 _))
          (CStep.sched 0 _))
        (CStep.sched 1 _))
      (CStep.sched 1 _))
    (CStep.sched 0 _)
